import Mathlib

/-!
Verification development for the `kaosu-packer` packing core.

The definitions below are a shallow embedding of the Rust sources
`src/geom.rs`, `src/placer.rs`, `src/ga.rs` and `src/lib.rs`:
machine integers (`i32`, `usize`) are modelled as `ℤ` / `ℕ`, the `f32`
chromosome genes and the `f64` fitness values as `ℚ`, and calls that can
panic (out-of-bounds indexing of an empty population, `Option::unwrap` on
an empty bin list) as `Option`-returning functions.  Randomness in the GA
driver is made explicit: the freshly decoded mutant/offspring entries of a
generation are taken as parameters.
-/

namespace Kaosu

/-- `Point` from `geom.rs`: integer coordinates in bin-local space. -/
structure Point where
  x : ℤ
  y : ℤ
  z : ℤ
deriving DecidableEq, Repr

instance : Inhabited Point := ⟨⟨0, 0, 0⟩⟩

/-- `Point::distance2_from`: squared Euclidean distance between two points. -/
def Point.distance2_from (p other : Point) : ℤ :=
  let dx := p.x - other.x
  let dy := p.y - other.y
  let dz := p.z - other.z
  dx * dx + dy * dy + dz * dz

/-- `Point::scalar_less_than`: componentwise `<=` (despite the name). -/
def Point.scalar_less_than (p other : Point) : Bool :=
  p.x ≤ other.x && p.y ≤ other.y && p.z ≤ other.z

/-- `Cuboid` from `geom.rs`; constructor argument order is `(width, depth, height)`. -/
structure Cuboid where
  width : ℤ
  depth : ℤ
  height : ℤ
deriving DecidableEq, Repr

instance : Inhabited Cuboid := ⟨⟨0, 0, 0⟩⟩

/-- `Cuboid::volume`. -/
def Cuboid.volume (c : Cuboid) : ℤ :=
  c.width * c.depth * c.height

/-- `RotationType` from `geom.rs`. -/
inductive RotationType where
  | ThreeDimension
  | TwoDimension
deriving DecidableEq, Repr

/-- `Space` from `geom.rs`: an axis-aligned box given by two corner points. -/
structure Space where
  bottom_left : Point
  upper_right : Point
deriving DecidableEq, Repr

instance : Inhabited Space := ⟨⟨default, default⟩⟩

/-- `Space::from_placement`: anchor a cuboid at `origin`; note `y` gets the
height and `z` gets the depth. -/
def Space.from_placement (origin : Point) (rect : Cuboid) : Space :=
  { bottom_left := origin
    upper_right := ⟨origin.x + rect.width, origin.y + rect.height, origin.z + rect.depth⟩ }

/-- `Space::width`. -/
def Space.width (s : Space) : ℤ := s.upper_right.x - s.bottom_left.x

/-- `Space::depth`. -/
def Space.depth (s : Space) : ℤ := s.upper_right.z - s.bottom_left.z

/-- `Space::height`. -/
def Space.height (s : Space) : ℤ := s.upper_right.y - s.bottom_left.y

/-- `Cuboid::can_fit_in`. -/
def Cuboid.can_fit_in (c : Cuboid) (space : Space) : Bool :=
  space.width ≥ c.width && space.height ≥ c.height && space.depth ≥ c.depth

/-- `Space::contains`: componentwise non-strict containment. -/
def Space.contains (s other : Space) : Bool :=
  s.bottom_left.scalar_less_than other.bottom_left
    && other.upper_right.scalar_less_than s.upper_right

/-- `Space::intersects`: built from the non-strict `scalar_less_than`. -/
def Space.intersects (s other : Space) : Bool :=
  s.bottom_left.scalar_less_than other.upper_right
    && other.bottom_left.scalar_less_than s.upper_right

/-- `Space::union`: despite the name, the componentwise intersection box. -/
def Space.union (s other : Space) : Space :=
  let bx := max s.bottom_left.x other.bottom_left.x
  let by_ := max s.bottom_left.y other.bottom_left.y
  let bz := max s.bottom_left.z other.bottom_left.z
  let ux := min s.upper_right.x other.upper_right.x
  let uy := min s.upper_right.y other.upper_right.y
  let uz := min s.upper_right.z other.upper_right.z
  ⟨⟨bx, by_, bz⟩, ⟨ux, uy, uz⟩⟩

/-- Modelled from the spec: `Space::volume` is called by
`InnerBin::allocate_space` in `placer.rs` but its definition is not in
`src/geom.rs`; the spec defines a space's volume as the product of its
three extents. -/
def Space.volume (s : Space) : ℤ :=
  s.width * s.depth * s.height

/-- `rotate_cuboid` from `placer.rs` (same enumeration as
`RotationType::orientations_for` in `geom.rs`): push the distinct
axis permutations in a fixed order. -/
def rotate_cuboid (tp : RotationType) (cuboid : Cuboid) : List Cuboid :=
  let only_2d := match tp with
    | RotationType.TwoDimension => true
    | RotationType.ThreeDimension => false
  [Cuboid.mk cuboid.width cuboid.depth cuboid.height]
    ++ (if cuboid.width ≠ cuboid.depth then
          [Cuboid.mk cuboid.depth cuboid.width cuboid.height] else [])
    ++ (if !only_2d then
          (if cuboid.height ≠ cuboid.depth then
            [Cuboid.mk cuboid.width cuboid.height cuboid.depth]
              ++ (if cuboid.height ≠ cuboid.width then
                    [Cuboid.mk cuboid.height cuboid.width cuboid.depth] else [])
           else [])
          ++ (if cuboid.width ≠ cuboid.depth ∧ cuboid.height ≠ cuboid.width then
                [Cuboid.mk cuboid.height cuboid.depth cuboid.width]
                  ++ (if cuboid.height ≠ cuboid.depth then
                        [Cuboid.mk cuboid.depth cuboid.height cuboid.width] else [])
              else [])
        else [])

/-- `difference_process` from `placer.rs`: the six face slabs of `other`
inside `this`, keeping those with no zero extent that pass the filter. -/
def difference_process (this other : Space) (new_space_filter : Space → Bool) :
    List Space :=
  let sb := this.bottom_left
  let su := this.upper_right
  let ob := other.bottom_left
  let ou := other.upper_right
  let spaces : List Space :=
    [ ⟨sb, ⟨ob.x, su.y, su.z⟩⟩
    , ⟨⟨ou.x, sb.y, sb.z⟩, su⟩
    , ⟨sb, ⟨su.x, ob.y, su.z⟩⟩
    , ⟨⟨sb.x, ou.y, sb.z⟩, su⟩
    , ⟨sb, ⟨su.x, su.y, ob.z⟩⟩
    , ⟨⟨sb.x, sb.y, ou.z⟩, su⟩ ]
  spaces.filter fun ns => min (min ns.width ns.depth) ns.height ≠ 0 && new_space_filter ns

/-- `InnerBox` from `placer.rs`: a cuboid with its precomputed smallest
dimension and volume. -/
structure InnerBox where
  cuboid : Cuboid
  smallest_dimension : ℤ
  volume : ℤ
deriving DecidableEq, Repr

instance : Inhabited InnerBox := ⟨⟨default, 0, 0⟩⟩

/-- `impl From<T> for InnerBox`. -/
def innerBoxOf (rect : Cuboid) : InnerBox :=
  ⟨rect, min (min rect.height rect.width) rect.depth, rect.volume⟩

/-- `InnerPlacement` from `placer.rs`. -/
structure InnerPlacement where
  space : Space
  bin_no : ℕ
  box_idx : ℕ
deriving DecidableEq, Repr

/-- `InnerSolution` from `placer.rs`. -/
structure InnerSolution where
  num_bins : ℕ
  least_load : ℤ
  placements : List InnerPlacement
deriving DecidableEq, Repr

/-- `InnerBin` from `placer.rs`.  The scratch vectors
(`spaces_intersects`, `new_empty_spaces`, `orientations`) are cleared at
the start of every use in the source, so they are modelled as locals of
the operations rather than as fields. -/
structure InnerBin where
  spec : Cuboid
  used_volume : ℤ
  empty_space_list : List Space
deriving DecidableEq, Repr

instance : Inhabited InnerBin := ⟨⟨default, 0, []⟩⟩

/-- `InnerBin::new`. -/
def InnerBin.new (spec : Cuboid) : InnerBin :=
  ⟨spec, 0, [Space.from_placement ⟨0, 0, 0⟩ spec]⟩

/-- `InnerBin::reset`. -/
def InnerBin.reset (b : InnerBin) : InnerBin :=
  { b with used_volume := 0, empty_space_list := [Space.from_placement ⟨0, 0, 0⟩ b.spec] }

/-- Inner loop of `InnerBin::try_place_cuboid`: fold one empty space's
fitting orientations over the `(max_dist, best_ems)` accumulator. -/
def tryPlaceInner (corner : Point) (orientations : List Cuboid) (ems : Space)
    (acc : ℤ × Option Space) : ℤ × Option Space :=
  orientations.foldl
    (fun acc o =>
      if o.can_fit_in ems then
        let dist := corner.distance2_from (Space.from_placement ems.bottom_left o).upper_right
        if dist > acc.1 then (dist, some ems) else acc
      else acc)
    acc

/-- `InnerBin::try_place_cuboid`: note the manually built
`container_upper_right` places `spec.depth` on `y` and `spec.height` on
`z`, the opposite of `Space::from_placement`. -/
def InnerBin.try_place_cuboid (b : InnerBin) (cuboid : Cuboid)
    (rotation_type : RotationType) : Option Space :=
  let orientations := rotate_cuboid rotation_type cuboid
  let container_upper_right : Point := ⟨b.spec.width, b.spec.depth, b.spec.height⟩
  (b.empty_space_list.foldl
    (fun acc ems => tryPlaceInner container_upper_right orientations ems acc)
    (-1, none)).2

/-- `Vec::swap_remove`: replace index `i` with the last element and pop. -/
def swapRemove {α : Type} (l : List α) (i : ℕ) : List α :=
  match l.getLast? with
  | none => l
  | some a => (l.set i a).dropLast

/-- The subsumption loop at the end of `InnerBin::allocate_space`: keep a
candidate only if no other position holds a space containing it. -/
def subsumePass (cands : List Space) : List Space :=
  (cands.enum.filter fun p =>
      ! cands.enum.any fun q => q.1 ≠ p.1 && q.2.contains p.2).map Prod.snd

/-- The candidate remainder spaces gathered by `InnerBin::allocate_space`:
difference every intersecting empty space against its clipped overlap
with the placed space, in list order. -/
def newEmptySpaces (b : InnerBin) (space : Space) (new_space_filter : Space → Bool) :
    List Space :=
  (b.empty_space_list.filter fun ems => ems.intersects space).flatMap
    fun ems => difference_process ems (ems.union space) new_space_filter

/-- The old empty spaces surviving `InnerBin::allocate_space`: the
intersecting indices are `swap_remove`d in reverse order, then the
remainder is `retain`ed by the new-space filter. -/
def retainedSpaces (b : InnerBin) (space : Space) (new_space_filter : Space → Bool) :
    List Space :=
  let spaces_intersects :=
    (b.empty_space_list.enum.filter fun p => p.2.intersects space).map Prod.fst
  (spaces_intersects.reverse.foldl swapRemove b.empty_space_list).filter new_space_filter

/-- `InnerBin::allocate_space`. -/
def InnerBin.allocate_space (b : InnerBin) (space : Space)
    (new_space_filter : Space → Bool) : InnerBin :=
  { b with
    used_volume := b.used_volume + space.volume
    empty_space_list :=
      retainedSpaces b space new_space_filter
        ++ subsumePass (newEmptySpaces b space new_space_filter) }

/-- `BinList` from `placer.rs`: open bins are the prefix of length `size`;
the suffix holds reusable buffered bins. -/
structure BinList where
  spec : Cuboid
  bins : List InnerBin
  size : ℕ
deriving DecidableEq, Repr

/-- `BinList::new`. -/
def BinList.new (spec : Cuboid) : BinList := ⟨spec, [], 0⟩

/-- `BinList::nth`. -/
def BinList.nth (bl : BinList) (idx : ℕ) : InnerBin := bl.bins.getD idx default

/-- `BinList::nth_mut` followed by an in-place update. -/
def BinList.nth_mut (bl : BinList) (idx : ℕ) (f : InnerBin → InnerBin) : BinList :=
  { bl with bins := bl.bins.set idx (f (bl.bins.getD idx default)) }

/-- `BinList::opened`. -/
def BinList.opened (bl : BinList) : List InnerBin := bl.bins.take bl.size

/-- `BinList::open_new_bin`: push a fresh bin, or reset a buffered one. -/
def BinList.open_new_bin (bl : BinList) : ℕ × BinList :=
  let buffered := bl.bins.length - bl.size
  let bins' :=
    if buffered = 0 then bl.bins ++ [InnerBin.new bl.spec]
    else bl.bins.set bl.size (bl.bins.getD bl.size default).reset
  (bl.size, { bl with bins := bins', size := bl.size + 1 })

/-- `BinList::reset`. -/
def BinList.reset (bl : BinList) : BinList := { bl with size := 0 }

/-- `i32::MAX`. -/
def i32Max : ℤ := 2 ^ 31 - 1

/-- `Placer::min_dimension_and_volume`: fold the remaining
box-packing-sequence tail for the smallest dimension and volume. -/
def min_dimension_and_volume (boxes : List InnerBox) (remain_bps : List (ℕ × ℚ)) :
    ℤ × ℤ :=
  remain_bps.foldl
    (fun acc p =>
      let b := boxes.getD p.1 default
      (min acc.1 b.smallest_dimension, min acc.2 b.volume))
    (i32Max, i32Max)

/-- `Placer::calculate_bps`: pair each first-half gene with its index and
sort ascending by gene. -/
def calculate_bps (chromosome : List ℚ) : List (ℕ × ℚ) :=
  List.insertionSort (fun a b : ℕ × ℚ => a.2 ≤ b.2)
    (chromosome.take (chromosome.length / 2)).enum

/-- Executable form of `(gene * len as f32).ceil() as usize` before the
saturation to `0`: the ceiling of `g * n` computed on the numerator and
denominator with floor division (see `ratCeilMulNat_eq_ceil`). -/
def ratCeilMulNat (g : ℚ) (n : ℕ) : ℤ :=
  -((-(g.num * n)).fdiv g.den)

/-- `Placer::place_box`: pick the orientation selected by the VBO gene and
anchor it at the container's bottom-left corner. -/
def place_box (boxes : List InnerBox) (rotation_type : RotationType) (box_idx : ℕ)
    (chromosome : List ℚ) (container : Space) : Space :=
  let cuboid := (boxes.getD box_idx default).cuboid
  let gene := chromosome.getD (chromosome.length / 2 + box_idx) 0
  let orientations := (rotate_cuboid rotation_type cuboid).filter fun c =>
    c.can_fit_in container
  let decoded_gene := (ratCeilMulNat gene orientations.length).toNat
  Space.from_placement container.bottom_left
    (orientations.getD (max decoded_gene 1 - 1) default)

/-- Mutable state of one `Placer::place_boxes` run. -/
structure PlaceState where
  bins : BinList
  placements : List InnerPlacement
  min_dimension : ℤ
  min_volume : ℤ
deriving DecidableEq

/-- First-fit walk over the opened bins in `Placer::place_boxes`. -/
def findFirstFit (opened : List InnerBin) (cuboid : Cuboid) (rotation_type : RotationType) :
    Option (ℕ × Space) :=
  opened.enum.findSome? fun p =>
    (p.2.try_place_cuboid cuboid rotation_type).map fun s => (p.1, s)

/-- One iteration of the `Placer::place_boxes` loop: find a bin, decode the
placement, lazily refresh the pruning thresholds, allocate, record. -/
def placeStep (boxes : List InnerBox) (rotation_type : RotationType)
    (chromosome : List ℚ) (entry : ℕ × ℚ) (rest : List (ℕ × ℚ)) (st : PlaceState) :
    PlaceState :=
  let box_idx := entry.1
  let box_to_pack := boxes.getD box_idx default
  let fit : ℕ × Space × BinList :=
    match findFirstFit st.bins.opened box_to_pack.cuboid rotation_type with
    | some (i, s) => (i, s, st.bins)
    | none =>
      let opened := st.bins.open_new_bin
      (opened.1, ((opened.2.nth opened.1).empty_space_list.headD default, opened.2))
  let placement := place_box boxes rotation_type box_idx chromosome fit.2.1
  let mins :=
    if box_to_pack.smallest_dimension ≤ st.min_dimension ∨ box_to_pack.volume ≤ st.min_volume
    then min_dimension_and_volume boxes rest
    else (st.min_dimension, st.min_volume)
  let bins2 := fit.2.2.nth_mut fit.1 fun bin =>
    bin.allocate_space placement fun ns =>
      min (min ns.width ns.depth) ns.height ≥ mins.1
        && ns.width * ns.depth * ns.height ≥ mins.2
  { bins := bins2
    placements := st.placements ++ [⟨placement, fit.1, box_idx⟩]
    min_dimension := mins.1
    min_volume := mins.2 }

/-- The `Placer::place_boxes` loop over the sorted box packing sequence. -/
def placeLoop (boxes : List InnerBox) (rotation_type : RotationType)
    (chromosome : List ℚ) : List (ℕ × ℚ) → PlaceState → PlaceState
  | [], st => st
  | e :: rest, st =>
    placeLoop boxes rotation_type chromosome rest
      (placeStep boxes rotation_type chromosome e rest st)

/-- `Placer::place_boxes`.  The final `min().unwrap()` over the opened
bins' used volumes is modelled as an `Option`: `none` is the panic. -/
def place_boxes (boxes : List InnerBox) (rotation_type : RotationType)
    (chromosome : List ℚ) (bins0 : BinList) : Option InnerSolution × BinList :=
  let bps := calculate_bps chromosome
  let st := placeLoop boxes rotation_type chromosome bps ⟨bins0, [], i32Max, i32Max⟩
  let bins := st.bins.opened
  match (bins.map InnerBin.used_volume).min? with
  | none => (none, st.bins)
  | some least_load => (some ⟨bins.length, least_load, st.placements⟩, st.bins)

/-- Modelled from the spec: the rescan variant of the placement loop,
which recomputes the pruning thresholds from the remaining tail at every
step instead of lazily.  Used as the comparison point for
`place_boxes`'s lazy threshold maintenance. -/
def placeStepRescan (boxes : List InnerBox) (rotation_type : RotationType)
    (chromosome : List ℚ) (entry : ℕ × ℚ) (rest : List (ℕ × ℚ))
    (st : BinList × List InnerPlacement) : BinList × List InnerPlacement :=
  let box_idx := entry.1
  let box_to_pack := boxes.getD box_idx default
  let fit : ℕ × Space × BinList :=
    match findFirstFit st.1.opened box_to_pack.cuboid rotation_type with
    | some (i, s) => (i, s, st.1)
    | none =>
      let opened := st.1.open_new_bin
      (opened.1, ((opened.2.nth opened.1).empty_space_list.headD default, opened.2))
  let placement := place_box boxes rotation_type box_idx chromosome fit.2.1
  let mins := min_dimension_and_volume boxes rest
  let bins2 := fit.2.2.nth_mut fit.1 fun bin =>
    bin.allocate_space placement fun ns =>
      min (min ns.width ns.depth) ns.height ≥ mins.1
        && ns.width * ns.depth * ns.height ≥ mins.2
  (bins2, st.2 ++ [⟨placement, fit.1, box_idx⟩])

/-- Rescan variant of `placeLoop`. -/
def placeLoopRescan (boxes : List InnerBox) (rotation_type : RotationType)
    (chromosome : List ℚ) : List (ℕ × ℚ) → BinList × List InnerPlacement →
    BinList × List InnerPlacement
  | [], st => st
  | e :: rest, st =>
    placeLoopRescan boxes rotation_type chromosome rest
      (placeStepRescan boxes rotation_type chromosome e rest st)

/-- Rescan variant of `place_boxes`. -/
def place_boxes_rescan (boxes : List InnerBox) (rotation_type : RotationType)
    (chromosome : List ℚ) (bins0 : BinList) : Option InnerSolution × BinList :=
  let bps := calculate_bps chromosome
  let st := placeLoopRescan boxes rotation_type chromosome bps (bins0, [])
  let bins := st.1.opened
  match (bins.map InnerBin.used_volume).min? with
  | none => (none, st.1)
  | some least_load => (some ⟨bins.length, least_load, st.2⟩, st.1)

/-- `InnerChromosome` from `ga.rs`: a chromosome with its decoded solution
and fitness.  The `f64` fitness is modelled as `ℚ`. -/
structure GAEntry (α : Type) where
  chromosome : List ℚ
  solution : α
  fitness : ℚ
deriving DecidableEq

/-- `ga::Params`. -/
structure GAParams where
  population_size : ℕ
  num_elites : ℕ
  num_mutants : ℕ
  inherit_elite_probability : ℚ
  max_generations : ℤ
  max_generations_no_improvement : ℤ
deriving DecidableEq

/-- `Solver::sort_population`: sort ascending by fitness. -/
def sortPopulation {α : Type} (population : List (GAEntry α)) : List (GAEntry α) :=
  List.insertionSort (fun a b => a.fitness ≤ b.fitness) population

/-- `Solver::evolve_new_generation` (serial path): the first `num_elites`
entries of the previous population are copied, the freshly decoded
mutants and crossover offspring follow, and the result is sorted.  The
RNG-dependent mutant and offspring entries are the `newcomers`
parameter. -/
def evolve_new_generation {α : Type} (params : GAParams)
    (population newcomers : List (GAEntry α)) : List (GAEntry α) :=
  sortPopulation (population.take params.num_elites ++ newcomers)

/-- The `Solver::solve` generation loop.  `fuel` is the number of
generations left before `max_generations` is reached; reading
`population[0]` of an empty population is the panic, modelled as
`none`. -/
def solveGo {α : Type} (params : GAParams) (newcomers : ℕ → List (GAEntry α)) :
    ℕ → ℕ → ℤ → List (GAEntry α) → Option (List (GAEntry α))
  | 0, _, _, population => some population
  | fuel + 1, gen, no_improvement, population =>
    if no_improvement < params.max_generations_no_improvement then
      match population.head? with
      | none => none
      | some prev =>
        let population1 := evolve_new_generation params population (newcomers gen)
        match population1.head? with
        | none => none
        | some curr =>
          solveGo params newcomers fuel (gen + 1)
            (if curr.fitness < prev.fitness then 0 else no_improvement + 1) population1
    else some population

/-- `Solver::solve`: run the generation loop, then return the incumbent's
solution (`population[0]`, a panic on an empty population). -/
def solve {α : Type} (params : GAParams) (newcomers : ℕ → List (GAEntry α))
    (population0 : List (GAEntry α)) : Option α :=
  (solveGo params newcomers params.max_generations.toNat 0 0 population0).bind
    fun population => population.head?.map GAEntry.solution

/-- `Decoder::fitness_of` from `placer.rs`:
`num_bins + least_load / bin_volume`. -/
def fitness_of (bin_volume : ℤ) (solution : InnerSolution) : ℚ :=
  (solution.num_bins : ℚ) + (solution.least_load : ℚ) / (bin_volume : ℚ)

/-- `Solver::decode_chromosome` from `ga.rs` applied to the placer's
`Decoder`: decode, compute the fitness, then reset the decoder. -/
def decodeWithReset (boxes : List InnerBox) (rotation_type : RotationType)
    (bin_volume : ℤ) (st : BinList) (chromosome : List ℚ) :
    Option (GAEntry InnerSolution) × BinList :=
  let r := place_boxes boxes rotation_type chromosome st
  (r.1.map fun sol => ⟨chromosome, sol, fitness_of bin_volume sol⟩, r.2.reset)

/-- Decode a list of chromosomes on one shared decoder, resetting after
each decode as the GA driver does. -/
def decodeMany (boxes : List InnerBox) (rotation_type : RotationType)
    (bin_volume : ℤ) : List (List ℚ) → BinList →
    Option (List (GAEntry InnerSolution) × BinList)
  | [], st => some ([], st)
  | c :: cs, st =>
    match decodeWithReset boxes rotation_type bin_volume st c with
    | (none, _) => none
    | (some e, st1) =>
      (decodeMany boxes rotation_type bin_volume cs st1).map fun p => (e :: p.1, p.2)

/-- `Solver::init_first_generation` (serial path): decode
`population_size` generated chromosomes and sort. -/
def init_first_generation (boxes : List InnerBox) (rotation_type : RotationType)
    (bin_spec : Cuboid) (population_size : ℕ) (gen_chromosomes : ℕ → List ℚ) :
    Option (List (GAEntry InnerSolution)) :=
  (decodeMany boxes rotation_type bin_spec.volume
      ((List.range population_size).map gen_chromosomes) (BinList.new bin_spec)).map
    fun p => sortPopulation p.1

/-- `Params` from `lib.rs`. -/
structure Params where
  population_factor : ℕ
  elites_percentage : ℚ
  mutants_percentage : ℚ
  inherit_elite_probability : ℚ
  max_generations : ℤ
  max_generations_no_improvement : ℤ
  box_rotation_type : RotationType

/-- `Params::get_ga_params`: derive the absolute GA counts
(`as usize` saturates negatives to zero, hence `Int.toNat` of the
floor). -/
def Params.get_ga_params (p : Params) (num_items : ℕ) : GAParams :=
  let population_size := p.population_factor * num_items
  { population_size := population_size
    num_elites := (⌊p.elites_percentage * (population_size : ℚ)⌋).toNat
    num_mutants := (⌊p.mutants_percentage * (population_size : ℚ)⌋).toNat
    inherit_elite_probability := p.inherit_elite_probability
    max_generations := p.max_generations
    max_generations_no_improvement := p.max_generations_no_improvement }

/-- Public `Placement` from `lib.rs`. -/
structure Placement where
  space : Space
  item_idx : ℕ
deriving DecidableEq

/-- The reshaping at the end of `do_pack!` in `lib.rs`: distribute the
inner placements over `num_bins` buckets in placement order. -/
def reshapeSolution (solution : InnerSolution) : List (List Placement) :=
  solution.placements.foldl
    (fun bins pl => bins.set pl.bin_no (bins.getD pl.bin_no [] ++ [⟨pl.space, pl.box_idx⟩]))
    (List.replicate solution.num_bins [])

/-- `pack_boxes` from `lib.rs`.  The generator's random chromosomes and
the RNG-dependent newcomer entries of each generation are parameters;
`none` models a panic. -/
def pack_boxes (params : Params) (bin_spec : Cuboid) (boxes : List Cuboid)
    (gen_chromosomes : ℕ → List ℚ) (newcomers : ℕ → List (GAEntry InnerSolution)) :
    Option (List (List Placement)) :=
  let inner := boxes.map innerBoxOf
  let ga_params := params.get_ga_params boxes.length
  match init_first_generation inner params.box_rotation_type bin_spec
      ga_params.population_size gen_chromosomes with
  | none => none
  | some population0 =>
    (solve ga_params newcomers population0).map reshapeSolution

/-- Membership of an integer point's half-open unit cell in a space:
`bottom_left ≤ p` and `p < upper_right` componentwise.  Used to state
coverage and interior-overlap facts about the six-way difference. -/
def Space.memPt (s : Space) (p : Point) : Bool :=
  s.bottom_left.x ≤ p.x && p.x < s.upper_right.x &&
  (s.bottom_left.y ≤ p.y && p.y < s.upper_right.y) &&
  (s.bottom_left.z ≤ p.z && p.z < s.upper_right.z)

/-- Squared distance from `corner` to the upper-right corner of the
rotated box `o` anchored at `ems.bottom_left`, as computed inside
`InnerBin::try_place_cuboid`. -/
def pairDist (corner : Point) (ems : Space) (o : Cuboid) : ℤ :=
  corner.distance2_from (Space.from_placement ems.bottom_left o).upper_right

/-- The distances of all orientations that fit in `ems`. -/
def emsFitDists (corner : Point) (orientations : List Cuboid) (ems : Space) : List ℤ :=
  (orientations.filter fun o => o.can_fit_in ems).map fun o => pairDist corner ems o

/-- Specification-shaped selection: the first empty space in iteration
order attaining the maximal distance over all fitting
(space, orientation) pairs, `none` when no pair fits. -/
def selectBestEms (corner : Point) (orientations : List Cuboid)
    (ems_list : List Space) : Option Space :=
  match (ems_list.flatMap fun ems => emsFitDists corner orientations ems).max? with
  | none => none
  | some m => ems_list.find? fun ems => (emsFitDists corner orientations ems).contains m

/-- The decoder states reachable from a fresh decoder by a sequence of
`decode_chromosome` calls, each followed by `reset` as the GA driver
does. -/
inductive ReachableDecoder (boxes : List InnerBox) (rotation_type : RotationType)
    (bin_spec : Cuboid) : BinList → Prop
  | fresh : ReachableDecoder boxes rotation_type bin_spec (BinList.new bin_spec)
  | step (c : List ℚ) (s : BinList) :
      ReachableDecoder boxes rotation_type bin_spec s →
      ReachableDecoder boxes rotation_type bin_spec
        ((place_boxes boxes rotation_type c s).2.reset)

/-! ## Helper lemmas -/

theorem Space.contains_self (s : Space) : s.contains s = true := by
  simp [Space.contains, Point.scalar_less_than]

theorem min3_ne_zero {w d h : ℤ} (hw : 0 < w) (hd : 0 < d) (hh : 0 < h) :
    min (min w d) h ≠ 0 :=
  (lt_min_iff.mpr ⟨lt_min_iff.mpr ⟨hw, hd⟩, hh⟩).ne'

/-! ## C5: the intersection predicate -/

/-- Claim C5 as stated is false on the code: the unit cubes
`[(0,0,0),(1,1,1)]` and `[(1,0,0),(2,1,1)]` merely touch on the face
`x = 1` — the strict overlap `b.low < a.high` fails on the x axis — yet
`Space::intersects` reports `true`. -/
theorem C5_touching_faces_intersect :
    Space.intersects ⟨⟨0, 0, 0⟩, ⟨1, 1, 1⟩⟩ ⟨⟨1, 0, 0⟩, ⟨2, 1, 1⟩⟩ = true ∧
    ¬ ((Space.mk ⟨1, 0, 0⟩ ⟨2, 1, 1⟩).bottom_left.x
        < (Space.mk ⟨0, 0, 0⟩ ⟨1, 1, 1⟩).upper_right.x) := by
  decide

/-- Claim C5, amended: `a.intersects(b)` holds iff the extents overlap
non-strictly on all three axes (`a.low ≤ b.high` and `b.low ≤ a.high`
per axis, via the `<=`-based `scalar_less_than`), so spaces that merely
touch on a face do intersect. -/
theorem C5_intersects_iff_nonstrict_overlap (a b : Space) :
    a.intersects b = true ↔
      a.bottom_left.x ≤ b.upper_right.x ∧ a.bottom_left.y ≤ b.upper_right.y ∧
      a.bottom_left.z ≤ b.upper_right.z ∧ b.bottom_left.x ≤ a.upper_right.x ∧
      b.bottom_left.y ≤ a.upper_right.y ∧ b.bottom_left.z ≤ a.upper_right.z := by
  simp [Space.intersects, Point.scalar_less_than, and_assoc]

/-! ## C4: the six-way difference -/

/-- Claim C4 as stated is false on the code: for `S = [(0,0,0),(2,2,2)]`
and `P = [(1,1,1),(2,2,2)] ⊆ S`, the six-way difference returns three
slabs, and the two distinct slabs `[(0,0,0),(1,2,2)]` and
`[(0,0,0),(2,1,2)]` both contain the interior cell at the origin —
the output is not pairwise non-overlapping in interior. -/
theorem C4_slabs_overlap :
    Space.contains ⟨⟨0, 0, 0⟩, ⟨2, 2, 2⟩⟩ ⟨⟨1, 1, 1⟩, ⟨2, 2, 2⟩⟩ = true ∧
    difference_process ⟨⟨0, 0, 0⟩, ⟨2, 2, 2⟩⟩ ⟨⟨1, 1, 1⟩, ⟨2, 2, 2⟩⟩ (fun _ => true) =
      [⟨⟨0, 0, 0⟩, ⟨1, 2, 2⟩⟩, ⟨⟨0, 0, 0⟩, ⟨2, 1, 2⟩⟩, ⟨⟨0, 0, 0⟩, ⟨2, 2, 1⟩⟩] ∧
    (Space.mk ⟨0, 0, 0⟩ ⟨1, 2, 2⟩ ≠ Space.mk ⟨0, 0, 0⟩ ⟨2, 1, 2⟩) ∧
    Space.memPt ⟨⟨0, 0, 0⟩, ⟨1, 2, 2⟩⟩ ⟨0, 0, 0⟩ = true ∧
    Space.memPt ⟨⟨0, 0, 0⟩, ⟨2, 1, 2⟩⟩ ⟨0, 0, 0⟩ = true := by
  decide

/-- Claim C4, amended: for a well-formed `P` contained in `S`, the
six-way difference yields spaces that (a) all lie inside `S` and
(c) together with `P` cover `S` exactly (every integer cell of `S` is in
`P` or in some returned slab); part (b) fails — distinct slabs may
overlap in interior. -/
theorem C4_difference_inside_and_covers (S P : Space)
    (hwf : P.bottom_left.scalar_less_than P.upper_right = true)
    (hsub : S.contains P = true) :
    (∀ t ∈ difference_process S P (fun _ => true), S.contains t = true) ∧
    ∀ p : Point, S.memPt p = true →
      P.memPt p = true ∨
        ∃ t ∈ difference_process S P (fun _ => true), t.memPt p = true := by
  simp only [Space.contains, Space.intersects, Point.scalar_less_than, Bool.and_eq_true,
    decide_eq_true_eq] at hwf hsub
  constructor
  · intro t ht
    simp only [difference_process, List.mem_filter, List.mem_cons, List.not_mem_nil,
      or_false] at ht
    rcases ht with ⟨ht, -⟩
    rcases ht with h | h | h | h | h | h <;> subst h <;>
      simp only [Space.contains, Point.scalar_less_than, Bool.and_eq_true,
        decide_eq_true_eq] <;> omega
  · intro p hp
    simp only [Space.memPt, Bool.and_eq_true, decide_eq_true_eq] at hp
    by_cases h1 : p.x < P.bottom_left.x
    · refine Or.inr ⟨⟨S.bottom_left, ⟨P.bottom_left.x, S.upper_right.y, S.upper_right.z⟩⟩,
        List.mem_filter.mpr ⟨by simp [difference_process], ?_⟩, ?_⟩
      · simp only [Bool.and_true, decide_eq_true_eq, Space.width, Space.depth, Space.height]
        exact min3_ne_zero (by omega) (by omega) (by omega)
      · simp only [Space.memPt, Bool.and_eq_true, decide_eq_true_eq]
        omega
    by_cases h2 : P.upper_right.x ≤ p.x
    · refine Or.inr ⟨⟨⟨P.upper_right.x, S.bottom_left.y, S.bottom_left.z⟩, S.upper_right⟩,
        List.mem_filter.mpr ⟨by simp [difference_process], ?_⟩, ?_⟩
      · simp only [Bool.and_true, decide_eq_true_eq, Space.width, Space.depth, Space.height]
        exact min3_ne_zero (by omega) (by omega) (by omega)
      · simp only [Space.memPt, Bool.and_eq_true, decide_eq_true_eq]
        omega
    by_cases h3 : p.y < P.bottom_left.y
    · refine Or.inr ⟨⟨S.bottom_left, ⟨S.upper_right.x, P.bottom_left.y, S.upper_right.z⟩⟩,
        List.mem_filter.mpr ⟨by simp [difference_process], ?_⟩, ?_⟩
      · simp only [Bool.and_true, decide_eq_true_eq, Space.width, Space.depth, Space.height]
        exact min3_ne_zero (by omega) (by omega) (by omega)
      · simp only [Space.memPt, Bool.and_eq_true, decide_eq_true_eq]
        omega
    by_cases h4 : P.upper_right.y ≤ p.y
    · refine Or.inr ⟨⟨⟨S.bottom_left.x, P.upper_right.y, S.bottom_left.z⟩, S.upper_right⟩,
        List.mem_filter.mpr ⟨by simp [difference_process], ?_⟩, ?_⟩
      · simp only [Bool.and_true, decide_eq_true_eq, Space.width, Space.depth, Space.height]
        exact min3_ne_zero (by omega) (by omega) (by omega)
      · simp only [Space.memPt, Bool.and_eq_true, decide_eq_true_eq]
        omega
    by_cases h5 : p.z < P.bottom_left.z
    · refine Or.inr ⟨⟨S.bottom_left, ⟨S.upper_right.x, S.upper_right.y, P.bottom_left.z⟩⟩,
        List.mem_filter.mpr ⟨by simp [difference_process], ?_⟩, ?_⟩
      · simp only [Bool.and_true, decide_eq_true_eq, Space.width, Space.depth, Space.height]
        exact min3_ne_zero (by omega) (by omega) (by omega)
      · simp only [Space.memPt, Bool.and_eq_true, decide_eq_true_eq]
        omega
    by_cases h6 : P.upper_right.z ≤ p.z
    · refine Or.inr ⟨⟨⟨S.bottom_left.x, S.bottom_left.y, P.upper_right.z⟩, S.upper_right⟩,
        List.mem_filter.mpr ⟨by simp [difference_process], ?_⟩, ?_⟩
      · simp only [Bool.and_true, decide_eq_true_eq, Space.width, Space.depth, Space.height]
        exact min3_ne_zero (by omega) (by omega) (by omega)
      · simp only [Space.memPt, Bool.and_eq_true, decide_eq_true_eq]
        omega
    · refine Or.inl ?_
      simp only [Space.memPt, Bool.and_eq_true, decide_eq_true_eq]
      omega

/-- Witness for `C4_difference_inside_and_covers` at
`S = [(0,0,0),(2,2,2)]`, `P = [(1,1,1),(2,2,2)]`. -/
theorem C4_difference_inside_and_covers_witness :
    (∀ t ∈ difference_process ⟨⟨0, 0, 0⟩, ⟨2, 2, 2⟩⟩ ⟨⟨1, 1, 1⟩, ⟨2, 2, 2⟩⟩ (fun _ => true),
        Space.contains ⟨⟨0, 0, 0⟩, ⟨2, 2, 2⟩⟩ t = true) ∧
    ∀ p : Point, Space.memPt ⟨⟨0, 0, 0⟩, ⟨2, 2, 2⟩⟩ p = true →
      Space.memPt ⟨⟨1, 1, 1⟩, ⟨2, 2, 2⟩⟩ p = true ∨
        ∃ t ∈ difference_process ⟨⟨0, 0, 0⟩, ⟨2, 2, 2⟩⟩ ⟨⟨1, 1, 1⟩, ⟨2, 2, 2⟩⟩ (fun _ => true),
          t.memPt p = true :=
  C4_difference_inside_and_covers ⟨⟨0, 0, 0⟩, ⟨2, 2, 2⟩⟩ ⟨⟨1, 1, 1⟩, ⟨2, 2, 2⟩⟩
    (by decide) (by decide)

/-! ## C9: duplicated remainder candidates cancel in the subsumption pass -/

/-- An element occurring at least twice in a list has, for every position
holding it, a second distinct position holding it. -/
theorem exists_other_pos_of_two_le_count {α : Type} [DecidableEq α] :
    ∀ (l : List α) (a : α) (k : ℕ), 2 ≤ l.count a → l[k]? = some a →
      ∃ j, j ≠ k ∧ l[j]? = some a := by
  intro l
  induction l with
  | nil => intro a k _ hk; simp at hk
  | cons x t ih =>
    intro a k h2 hk
    cases k with
    | zero =>
      have hxa : x = a := by simpa using hk
      subst hxa
      have h1 : 0 < t.count x := by
        have := List.count_cons_self x t
        omega
      rcases List.mem_iff_getElem?.mp (List.count_pos_iff.mp h1) with ⟨m, hm⟩
      exact ⟨m + 1, by omega, by simpa using hm⟩
    | succ k =>
      have hk' : t[k]? = some a := by simpa using hk
      by_cases hxa : x = a
      · exact ⟨0, by omega, by simp [hxa]⟩
      · have h2' : 2 ≤ t.count a := by
          have hcc := List.count_cons a x t
          rw [if_neg (show ¬((x == a) = true) by simp [hxa])] at hcc
          omega
        rcases ih a k h2' hk' with ⟨j, hj, hja⟩
        exact ⟨j + 1, by omega, by simpa using hja⟩

/-- Claim C9: if the candidate remainder list compiled during a single
`allocate_space` call holds two equal spaces at distinct positions, the
subsumption pass discards every copy (each counts as contained in the
other), so none is appended: the updated empty-space list is exactly
the retained old spaces followed by the subsumption survivors, and the
duplicated space is not among the survivors. -/
theorem C9_duplicate_candidates_discarded (b : InnerBin) (space s : Space)
    (f : Space → Bool) (h2 : 2 ≤ (newEmptySpaces b space f).count s) :
    s ∉ subsumePass (newEmptySpaces b space f) ∧
    (b.allocate_space space f).empty_space_list =
      retainedSpaces b space f ++ subsumePass (newEmptySpaces b space f) := by
  refine ⟨?_, rfl⟩
  intro hmem
  set L := newEmptySpaces b space f with hL
  rcases List.mem_map.mp hmem with ⟨p, hpfilter, hps⟩
  rcases List.mem_filter.mp hpfilter with ⟨hpmem, hppred⟩
  have hget : L[p.1]? = some s := by
    have h := List.mem_enum_iff_getElem?.mp hpmem
    rwa [hps] at h
  rcases exists_other_pos_of_two_le_count L s p.1 h2 hget with ⟨j, hj, hjget⟩
  have hjmem : (j, s) ∈ L.enum := List.mem_enum_iff_getElem?.mpr (by simpa using hjget)
  have hany : L.enum.any (fun q => q.1 ≠ p.1 && q.2.contains p.2) = true := by
    refine List.any_eq_true.mpr ⟨(j, s), hjmem, ?_⟩
    simp [hj, hps, Space.contains_self]
  rw [hany] at hppred
  simp at hppred

/-- Witness for `C9_duplicate_candidates_discarded`: a bin holding the
same empty space twice; differencing both against the placed left half
yields the right half twice, and neither copy survives. -/
theorem C9_duplicate_candidates_discarded_witness :
    (⟨⟨1, 0, 0⟩, ⟨2, 2, 2⟩⟩ : Space) ∉
      subsumePass (newEmptySpaces ⟨⟨2, 2, 2⟩, 0, [⟨⟨0, 0, 0⟩, ⟨2, 2, 2⟩⟩, ⟨⟨0, 0, 0⟩, ⟨2, 2, 2⟩⟩]⟩
        ⟨⟨0, 0, 0⟩, ⟨1, 2, 2⟩⟩ (fun _ => true)) ∧
    (InnerBin.allocate_space ⟨⟨2, 2, 2⟩, 0, [⟨⟨0, 0, 0⟩, ⟨2, 2, 2⟩⟩, ⟨⟨0, 0, 0⟩, ⟨2, 2, 2⟩⟩]⟩
        ⟨⟨0, 0, 0⟩, ⟨1, 2, 2⟩⟩ (fun _ => true)).empty_space_list =
      retainedSpaces ⟨⟨2, 2, 2⟩, 0, [⟨⟨0, 0, 0⟩, ⟨2, 2, 2⟩⟩, ⟨⟨0, 0, 0⟩, ⟨2, 2, 2⟩⟩]⟩
          ⟨⟨0, 0, 0⟩, ⟨1, 2, 2⟩⟩ (fun _ => true)
        ++ subsumePass (newEmptySpaces ⟨⟨2, 2, 2⟩, 0, [⟨⟨0, 0, 0⟩, ⟨2, 2, 2⟩⟩, ⟨⟨0, 0, 0⟩, ⟨2, 2, 2⟩⟩]⟩
            ⟨⟨0, 0, 0⟩, ⟨1, 2, 2⟩⟩ (fun _ => true)) :=
  C9_duplicate_candidates_discarded
    ⟨⟨2, 2, 2⟩, 0, [⟨⟨0, 0, 0⟩, ⟨2, 2, 2⟩⟩, ⟨⟨0, 0, 0⟩, ⟨2, 2, 2⟩⟩]⟩
    ⟨⟨0, 0, 0⟩, ⟨1, 2, 2⟩⟩ ⟨⟨1, 0, 0⟩, ⟨2, 2, 2⟩⟩ (fun _ => true) (by decide)

/-! ## C3: what `allocate_space` removes -/

theorem swapRemove_cons_succ {α : Type} (a : α) (t : List α) (i : ℕ) (ht : t ≠ []) :
    swapRemove (a :: t) (i + 1) = a :: swapRemove t i := by
  have hg := List.getLast?_eq_getLast t ht
  have hcons : (a :: t).getLast? = some (t.getLast ht) := by
    cases t with
    | nil => exact absurd rfl ht
    | cons b u => rw [List.getLast?_cons_cons]; exact hg
  have hne : t.set i (t.getLast ht) ≠ [] := by
    have hpos : 0 < (t.set i (t.getLast ht)).length := by
      rw [List.length_set]; exact List.length_pos.mpr ht
    exact List.length_pos.mp hpos
  simp only [swapRemove, hcons, hg, List.set_cons_succ,
    List.dropLast_cons_of_ne_nil hne]

theorem length_swapRemove {α : Type} (l : List α) (i : ℕ) (h : l ≠ []) :
    (swapRemove l i).length = l.length - 1 := by
  have hg := List.getLast?_eq_getLast l h
  simp [swapRemove, hg, List.length_dropLast, List.length_set]

theorem swapRemove_zero_perm {α : Type} (a : α) (R : List α) :
    (swapRemove (a :: R) 0).Perm R := by
  cases R with
  | nil => simp [swapRemove]
  | cons b u =>
    have hne : (b :: u) ≠ [] := by simp
    have hg := List.getLast?_eq_getLast (b :: u) hne
    have hcons : (a :: b :: u).getLast? = some ((b :: u).getLast hne) := by
      rw [List.getLast?_cons_cons]; exact hg
    simp only [swapRemove, hcons]
    rw [show (a :: b :: u).set 0 ((b :: u).getLast hne) =
        (b :: u).getLast hne :: b :: u from rfl]
    rw [List.dropLast_cons_of_ne_nil hne]
    calc ((b :: u).getLast hne :: (b :: u).dropLast).Perm
          ((b :: u).dropLast ++ [(b :: u).getLast hne]) :=
        (List.perm_append_singleton _ _).symm
      _ = b :: u := List.dropLast_append_getLast hne

theorem foldl_swapRemove_map_succ {α : Type} :
    ∀ (idxs : List ℕ) (a : α) (t : List α), idxs.length ≤ t.length →
      List.foldl swapRemove (a :: t) (idxs.map (· + 1)) =
        a :: List.foldl swapRemove t idxs := by
  intro idxs
  induction idxs with
  | nil => intro a t _; simp
  | cons i rest ih =>
    intro a t h
    have ht : t ≠ [] := by
      intro h0
      subst h0
      simp at h
    simp only [List.map_cons, List.foldl_cons]
    rw [swapRemove_cons_succ a t i ht]
    refine ih a (swapRemove t i) ?_
    rw [length_swapRemove t i ht]
    simp only [List.length_cons] at h
    omega

theorem enumFrom_filter_map_fst {α : Type} (pr : α → Bool) :
    ∀ (l : List α) (n : ℕ),
      ((List.enumFrom n l).filter fun p => pr p.2).map Prod.fst =
        ((l.enum.filter fun p => pr p.2).map Prod.fst).map (· + n) := by
  intro l
  induction l with
  | nil => intro n; simp
  | cons a t ih =>
    intro n
    have henum : (a :: t).enum = (0, a) :: List.enumFrom 1 t := List.enum_cons
    have hcomp : ∀ (L : List ℕ) (m : ℕ), (L.map (· + 1)).map (· + m) = L.map (· + (m + 1)) := by
      intro L m
      rw [List.map_map]
      have : ((· + m) ∘ (· + 1) : ℕ → ℕ) = (· + (m + 1)) := by
        funext x
        simp
        omega
      rw [this]
    rw [henum, List.enumFrom_cons, List.filter_cons, List.filter_cons]
    by_cases hpa : pr a
    · simp only [hpa, if_pos, List.map_cons]
      rw [ih (n + 1), ih 1, hcomp]
      simp
    · simp only [hpa, Bool.false_eq_true, if_neg, not_false_iff]
      rw [ih (n + 1), ih 1, hcomp]

theorem foldl_swapRemove_perm_filter {α : Type} (pr : α → Bool) :
    ∀ l : List α,
      (List.foldl swapRemove l
          ((l.enum.filter fun p => pr p.2).map Prod.fst).reverse).Perm
        (l.filter fun x => !pr x) := by
  intro l
  induction l with
  | nil => simp
  | cons a t ih =>
    have hidx : ((a :: t).enum.filter fun p => pr p.2).map Prod.fst =
        (if pr a then [0] else []) ++
          (((t.enum.filter fun p => pr p.2).map Prod.fst).map (· + 1)) := by
      rw [List.enum_cons, List.filter_cons]
      by_cases hpa : pr a
      · simp only [hpa, if_pos, List.map_cons]
        rw [show (List.enumFrom 1 t) = List.enumFrom 1 t from rfl,
          enumFrom_filter_map_fst pr t 1]
        simp
      · simp only [hpa, Bool.false_eq_true, if_neg, not_false_iff]
        rw [enumFrom_filter_map_fst pr t 1]
        simp
    have hlen : (((t.enum.filter fun p => pr p.2).map Prod.fst).reverse).length ≤ t.length := by
      have hf := List.length_filter_le (fun p => pr p.2) t.enum
      simp only [List.length_reverse, List.length_map]
      calc (t.enum.filter fun p => pr p.2).length ≤ t.enum.length := hf
        _ = t.length := List.enum_length
    rw [hidx, List.reverse_append, List.foldl_append, ← List.map_reverse,
      foldl_swapRemove_map_succ _ a t hlen]
    by_cases hpa : pr a
    · simp only [hpa, if_pos, List.reverse_cons, List.reverse_nil, List.nil_append,
        List.foldl_cons, List.foldl_nil]
      refine (swapRemove_zero_perm a _).trans ?_
      refine ih.trans ?_
      rw [List.filter_cons, if_neg (by simp [hpa])]
    · simp only [hpa, Bool.false_eq_true, if_neg, not_false_iff, List.reverse_nil,
        List.foldl_nil]
      rw [List.filter_cons, if_pos (by simp [hpa])]
      exact ih.cons a

/-- Claim C3 as stated is false on the code: with empty spaces
`E1 = [(0,0,0),(2,2,2)]` and `E2 = [(5,0,0),(6,1,1)]`, placing
`P = E1` with a pruning filter requiring minimum extent `≥ 2` empties
the whole list — `E2` does not intersect `P` yet is removed, because
`allocate_space` runs `retain(new_space_filter)` over all surviving
spaces, not only the new candidates. -/
theorem C3_nonintersecting_space_removed :
    (InnerBin.allocate_space
        ⟨⟨10, 10, 10⟩, 0, [⟨⟨0, 0, 0⟩, ⟨2, 2, 2⟩⟩, ⟨⟨5, 0, 0⟩, ⟨6, 1, 1⟩⟩]⟩
        ⟨⟨0, 0, 0⟩, ⟨2, 2, 2⟩⟩
        (fun ns => min (min ns.width ns.depth) ns.height ≥ 2)).empty_space_list = [] ∧
    Space.intersects ⟨⟨5, 0, 0⟩, ⟨6, 1, 1⟩⟩ ⟨⟨0, 0, 0⟩, ⟨2, 2, 2⟩⟩ = false ∧
    (⟨⟨5, 0, 0⟩, ⟨6, 1, 1⟩⟩ : Space) ∈
      ([⟨⟨0, 0, 0⟩, ⟨2, 2, 2⟩⟩, ⟨⟨5, 0, 0⟩, ⟨6, 1, 1⟩⟩] : List Space) := by
  decide

/-- Claim C3, amended: `allocate_space` removes the empty spaces that
intersect the placed region `P`, and additionally removes the
non-intersecting spaces rejected by the new-space pruning filter; the
non-intersecting spaces that pass the filter all remain (up to
reordering caused by `swap_remove`), followed by the appended
subsumption survivors. -/
theorem C3_frame_with_retain (b : InnerBin) (P : Space) (f : Space → Bool) :
    ((b.allocate_space P f).empty_space_list).Perm
      ((b.empty_space_list.filter fun s => !s.intersects P && f s)
        ++ subsumePass (newEmptySpaces b P f)) := by
  show ((retainedSpaces b P f ++ subsumePass (newEmptySpaces b P f)).Perm _)
  refine List.Perm.append_right _ ?_
  have h5 := (foldl_swapRemove_perm_filter (fun s => s.intersects P)
    b.empty_space_list).filter f
  rw [List.filter_filter] at h5
  have heq : (b.empty_space_list.filter fun a => f a && !a.intersects P) =
      (b.empty_space_list.filter fun s => !s.intersects P && f s) :=
    List.filter_congr (fun x _ => Bool.and_comm _ _)
  rw [heq] at h5
  exact h5

/-! ## C2: the best-empty-space selection -/

theorem foldl_max_init (l : List ℤ) : ∀ x y : ℤ, l.foldl max (max x y) = max x (l.foldl max y) := by
  induction l with
  | nil => intro x y; rfl
  | cons a t ih =>
    intro x y
    simp only [List.foldl_cons]
    rw [max_assoc, ih]

theorem foldl_max_of_max?_eq_some {l : List ℤ} {m : ℤ} (h : l.max? = some m) :
    ∀ x : ℤ, l.foldl max x = max x m := by
  cases l with
  | nil => simp at h
  | cons y u =>
    have hm : m = u.foldl max y := by
      rw [show (y :: u).max? = some (u.foldl max y) from rfl] at h
      exact (Option.some_inj.mp h).symm
    intro x
    simp only [List.foldl_cons]
    rw [foldl_max_init, hm]

theorem max?_append_eq (l1 l2 : List ℤ) :
    (l1 ++ l2).max? =
      match l1.max?, l2.max? with
      | none, m => m
      | some a, none => some a
      | some a, some b => some (max a b) := by
  cases l1 with
  | nil => simp
  | cons x t =>
    rw [show (x :: t).max? = some (t.foldl max x) from rfl]
    cases hl2 : l2.max? with
    | none =>
      have h0 : l2 = [] := List.max?_eq_none_iff.mp hl2
      subst h0
      rw [List.append_nil]
      rfl
    | some b =>
      have h2 : ((x :: t) ++ l2).max? = some (l2.foldl max (t.foldl max x)) := by
        rw [List.cons_append,
          show (x :: (t ++ l2)).max? = some ((t ++ l2).foldl max x) from rfl,
          List.foldl_append]
      rw [h2, foldl_max_of_max?_eq_some hl2]

theorem le_max?_of_mem {l : List ℤ} {m x : ℤ} (hmax : l.max? = some m) (hx : x ∈ l) :
    x ≤ m :=
  (List.max?_le_iff (fun _ _ _ => max_le_iff) hmax).mp le_rfl x hx

theorem mem_of_max?_eq_some {l : List ℤ} {m : ℤ} (h : l.max? = some m) : m ∈ l :=
  List.max?_mem max_choice h

theorem pairDist_nonneg (c : Point) (ems : Space) (o : Cuboid) : 0 ≤ pairDist c ems o := by
  simp only [pairDist, Point.distance2_from]
  exact add_nonneg (add_nonneg (mul_self_nonneg _) (mul_self_nonneg _)) (mul_self_nonneg _)

/-- Update an accumulator of the `try_place_cuboid` fold with the best
distance (if any) contributed by the empty space `ems`. -/
def bestUpdate (acc : ℤ × Option Space) (ems : Space) (o : Option ℤ) : ℤ × Option Space :=
  match o with
  | none => acc
  | some m => if acc.1 < m then (m, some ems) else acc

theorem bestUpdate_none (acc : ℤ × Option Space) (ems : Space) :
    bestUpdate acc ems none = acc := rfl

theorem bestUpdate_some (acc : ℤ × Option Space) (ems : Space) (m : ℤ) :
    bestUpdate acc ems (some m) = if acc.1 < m then (m, some ems) else acc := rfl

/-- The inner orientation loop of `try_place_cuboid` computed in closed
form: it raises the running maximum to the best fitting distance of this
empty space and records the space on strict improvement. -/
theorem tryPlaceInner_eq (corner : Point) (ems : Space) :
    ∀ (os : List Cuboid) (acc : ℤ × Option Space),
      tryPlaceInner corner os ems acc =
        bestUpdate acc ems (emsFitDists corner os ems).max? := by
  intro os
  induction os with
  | nil => intro acc; simp [tryPlaceInner, emsFitDists, bestUpdate]
  | cons o os ih =>
    intro acc
    have hstep : tryPlaceInner corner (o :: os) ems acc =
        tryPlaceInner corner os ems
          (if o.can_fit_in ems then
            (if acc.1 < pairDist corner ems o then (pairDist corner ems o, some ems) else acc)
          else acc) := by
      simp only [tryPlaceInner, List.foldl_cons, pairDist, gt_iff_lt]
    rw [hstep, ih]
    by_cases hfit : o.can_fit_in ems
    · have hd : emsFitDists corner (o :: os) ems =
          pairDist corner ems o :: emsFitDists corner os ems := by
        simp [emsFitDists, List.filter_cons, hfit]
      rw [hd, if_pos hfit]
      cases hmr : (emsFitDists corner os ems).max? with
      | none =>
        have hnil : emsFitDists corner os ems = [] := List.max?_eq_none_iff.mp hmr
        rw [bestUpdate_none, hnil,
          show ([pairDist corner ems o] : List ℤ).max? = some (pairDist corner ems o) from rfl,
          bestUpdate_some]
      | some m =>
        rw [bestUpdate_some,
          show (pairDist corner ems o :: emsFitDists corner os ems).max? =
            some ((emsFitDists corner os ems).foldl max (pairDist corner ems o)) from rfl,
          foldl_max_of_max?_eq_some hmr, bestUpdate_some]
        set d := pairDist corner ems o with hdd
        by_cases h1 : acc.1 < d
        · rw [if_pos h1]
          by_cases h2 : d < m
          · rw [if_pos h2, max_eq_right h2.le, if_pos (h1.trans h2)]
          · rw [if_neg h2, max_eq_left (not_lt.mp h2), if_pos h1]
        · rw [if_neg h1]
          by_cases h3 : acc.1 < m
          · have hdm : max d m = m := max_eq_right ((not_lt.mp h1).trans h3.le)
            rw [if_pos h3, hdm, if_pos h3]
          · have hno : ¬ acc.1 < max d m := by
              rcases max_choice d m with h | h <;> rw [h]
              · exact h1
              · exact h3
            rw [if_neg h3, if_neg hno]
    · have hd : emsFitDists corner (o :: os) ems = emsFitDists corner os ems := by
        simp [emsFitDists, List.filter_cons, hfit]
      rw [hd, if_neg hfit]

/-- Closed form of the whole `try_place_cuboid` fold over a list of empty
spaces starting from an arbitrary accumulator. -/
def outerBest (corner : Point) (os : List Cuboid) (l : List Space)
    (acc : ℤ × Option Space) : ℤ × Option Space :=
  match (l.flatMap fun ems => emsFitDists corner os ems).max? with
  | none => acc
  | some m =>
    if acc.1 < m then (m, l.find? fun ems => (emsFitDists corner os ems).contains m)
    else acc

theorem outerBest_eq_of_none {corner : Point} {os : List Cuboid} {l : List Space}
    {acc : ℤ × Option Space}
    (h : (l.flatMap fun ems => emsFitDists corner os ems).max? = none) :
    outerBest corner os l acc = acc := by
  unfold outerBest
  rw [h]

theorem outerBest_eq_of_some {corner : Point} {os : List Cuboid} {l : List Space}
    {acc : ℤ × Option Space} {m : ℤ}
    (h : (l.flatMap fun ems => emsFitDists corner os ems).max? = some m) :
    outerBest corner os l acc =
      if acc.1 < m then (m, l.find? fun ems => (emsFitDists corner os ems).contains m)
      else acc := by
  unfold outerBest
  rw [h]

theorem tryPlaceFold_eq (corner : Point) (os : List Cuboid) :
    ∀ (l : List Space) (acc : ℤ × Option Space),
      l.foldl (fun acc ems => tryPlaceInner corner os ems acc) acc =
        outerBest corner os l acc := by
  intro l
  induction l with
  | nil =>
    intro acc
    rw [List.foldl_nil, outerBest_eq_of_none (by simp)]
  | cons e rest ih =>
    intro acc
    rw [List.foldl_cons, tryPlaceInner_eq, ih]
    have hfm : ((e :: rest).flatMap fun ems => emsFitDists corner os ems) =
        emsFitDists corner os e ++ rest.flatMap fun ems => emsFitDists corner os ems :=
      List.flatMap_cons e rest _
    cases hme : (emsFitDists corner os e).max? with
    | none =>
      have hnil : emsFitDists corner os e = [] := List.max?_eq_none_iff.mp hme
      rw [bestUpdate_none]
      cases hmr : (rest.flatMap fun ems => emsFitDists corner os ems).max? with
      | none =>
        rw [outerBest_eq_of_none hmr,
          outerBest_eq_of_none (by rw [hfm, hnil, List.nil_append]; exact hmr)]
      | some m =>
        rw [outerBest_eq_of_some hmr,
          outerBest_eq_of_some (by rw [hfm, hnil, List.nil_append]; exact hmr)]
        have hfind : ((e :: rest).find? fun ems => (emsFitDists corner os ems).contains m) =
            rest.find? fun ems => (emsFitDists corner os ems).contains m := by
          refine List.find?_cons_of_neg _ ?_
          rw [hnil]
          simp
        rw [hfind]
    | some me =>
      rw [bestUpdate_some]
      cases hmr : (rest.flatMap fun ems => emsFitDists corner os ems).max? with
      | none =>
        have hnilr : (rest.flatMap fun ems => emsFitDists corner os ems) = [] :=
          List.max?_eq_none_iff.mp hmr
        have htot : ((e :: rest).flatMap fun ems => emsFitDists corner os ems).max? =
            some me := by
          rw [hfm, hnilr, List.append_nil]
          exact hme
        have hfind : ((e :: rest).find? fun ems => (emsFitDists corner os ems).contains me) =
            some e :=
          List.find?_cons_of_pos _ (by simpa using mem_of_max?_eq_some hme)
        rw [outerBest_eq_of_some htot, hfind]
        by_cases h1 : acc.1 < me
        · rw [if_pos h1, outerBest_eq_of_none hmr]
        · rw [if_neg h1, outerBest_eq_of_none hmr]
      | some mr =>
        have htot : ((e :: rest).flatMap fun ems => emsFitDists corner os ems).max? =
            some (max me mr) := by
          rw [hfm, max?_append_eq, hme, hmr]
        rw [outerBest_eq_of_some htot]
        by_cases h1 : acc.1 < me
        · rw [if_pos h1, outerBest_eq_of_some hmr]
          by_cases h2 : me < mr
          · have hnot : ¬ (mr ∈ emsFitDists corner os e) := fun hm =>
              absurd (le_max?_of_mem hme hm) (not_le.mpr h2)
            have hfind : ((e :: rest).find? fun ems =>
                (emsFitDists corner os ems).contains mr) =
                rest.find? fun ems => (emsFitDists corner os ems).contains mr :=
              List.find?_cons_of_neg _ (by simpa using hnot)
            rw [if_pos (show ((me, some e) : ℤ × Option Space).1 < mr from h2),
              max_eq_right h2.le, if_pos (h1.trans h2), hfind]
          · have hfind : ((e :: rest).find? fun ems =>
                (emsFitDists corner os ems).contains me) = some e :=
              List.find?_cons_of_pos _ (by simpa using mem_of_max?_eq_some hme)
            rw [if_neg (show ¬ ((me, some e) : ℤ × Option Space).1 < mr from h2),
              max_eq_left (not_lt.mp h2), if_pos h1, hfind]
        · rw [if_neg h1, outerBest_eq_of_some hmr]
          by_cases h3 : acc.1 < mr
          · have hmax : max me mr = mr := max_eq_right ((not_lt.mp h1).trans h3.le)
            have hmelt : me < mr := lt_of_le_of_lt (not_lt.mp h1) h3
            have hnot : ¬ (mr ∈ emsFitDists corner os e) := fun hm =>
              absurd (le_max?_of_mem hme hm) (not_le.mpr hmelt)
            have hfind : ((e :: rest).find? fun ems =>
                (emsFitDists corner os ems).contains mr) =
                rest.find? fun ems => (emsFitDists corner os ems).contains mr :=
              List.find?_cons_of_neg _ (by simpa using hnot)
            rw [if_pos h3, hmax, if_pos h3, hfind]
          · have hno : ¬ acc.1 < max me mr := by
              rcases max_choice me mr with h | h <;> rw [h]
              · exact h1
              · exact h3
            rw [if_neg h3, if_neg hno]

/-- Claim C2 as stated is false on the code: for the bin `(10, 8, 6)`
(width, depth, height) with empty spaces `A = [(0,0,6),(1,1,7)]` and
`B = [(0,5,0),(1,6,1)]` and a unit cube (a single orientation fitting
both), `try_place_cuboid` selects `A`, although `B`'s squared distance
from the claim's corner `(width, height, depth) = (10, 6, 8)` is `130`,
strictly larger than `A`'s `107` — the selection does not maximize the
distance from the `(width, height, depth)` corner. -/
theorem C2_wrong_corner :
    InnerBin.try_place_cuboid
        ⟨⟨10, 8, 6⟩, 0, [⟨⟨0, 0, 6⟩, ⟨1, 1, 7⟩⟩, ⟨⟨0, 5, 0⟩, ⟨1, 6, 1⟩⟩]⟩
        ⟨1, 1, 1⟩ RotationType.ThreeDimension = some ⟨⟨0, 0, 6⟩, ⟨1, 1, 7⟩⟩ ∧
    (Space.mk ⟨0, 0, 6⟩ ⟨1, 1, 7⟩ ≠ Space.mk ⟨0, 5, 0⟩ ⟨1, 6, 1⟩) ∧
    rotate_cuboid RotationType.ThreeDimension ⟨1, 1, 1⟩ = [⟨1, 1, 1⟩] ∧
    Cuboid.can_fit_in ⟨1, 1, 1⟩ ⟨⟨0, 5, 0⟩, ⟨1, 6, 1⟩⟩ = true ∧
    pairDist ⟨10, 6, 8⟩ ⟨⟨0, 5, 0⟩, ⟨1, 6, 1⟩⟩ ⟨1, 1, 1⟩ = 130 ∧
    pairDist ⟨10, 6, 8⟩ ⟨⟨0, 0, 6⟩, ⟨1, 1, 7⟩⟩ ⟨1, 1, 1⟩ = 107 := by
  decide

/-- Claim C2, amended: within a bin, `try_place_cuboid` selects the
empty space attaining the maximal squared Euclidean distance, over all
(ems, orientation) pairs where the rotated box fits, from the point
`(spec.width, spec.depth, spec.height)` in `(x, y, z)` — i.e. with the
roles of height and depth swapped relative to the core's
`from_placement` axis convention — to the rotated box's upper-right
corner anchored at `ems.bottom_left`; ties resolve to the first such
ems in iteration order, and `none` is returned iff no pair fits. -/
theorem C2_selects_first_max_dist_ems (b : InnerBin) (cuboid : Cuboid)
    (rotation_type : RotationType) :
    b.try_place_cuboid cuboid rotation_type =
      selectBestEms ⟨b.spec.width, b.spec.depth, b.spec.height⟩
        (rotate_cuboid rotation_type cuboid) b.empty_space_list := by
  show (b.empty_space_list.foldl
      (fun acc ems => tryPlaceInner ⟨b.spec.width, b.spec.depth, b.spec.height⟩
        (rotate_cuboid rotation_type cuboid) ems acc) (-1, none)).2 = _
  rw [tryPlaceFold_eq]
  unfold outerBest selectBestEms
  cases hm : ((b.empty_space_list.flatMap fun ems =>
      emsFitDists ⟨b.spec.width, b.spec.depth, b.spec.height⟩
        (rotate_cuboid rotation_type cuboid) ems)).max? with
  | none => rfl
  | some m =>
    have hmem := mem_of_max?_eq_some hm
    rcases List.mem_flatMap.mp hmem with ⟨ems, -, hin⟩
    rcases List.mem_map.mp hin with ⟨o, -, ho⟩
    have h0 : 0 ≤ m := ho ▸ pairDist_nonneg _ ems o
    dsimp only
    rw [if_pos (show (-1 : ℤ) < m by omega)]

/-! ## C7: the incumbent's fitness never worsens -/

instance {α : Type} : IsTotal (GAEntry α) (fun a b => a.fitness ≤ b.fitness) :=
  ⟨fun a b => le_total a.fitness b.fitness⟩

instance {α : Type} : IsTrans (GAEntry α) (fun a b => a.fitness ≤ b.fitness) :=
  ⟨fun _ _ _ => le_trans⟩

/-- Claim C7: with at least one elite, one step of
`evolve_new_generation` (for any decoded newcomer entries) produces a
population whose first entry's fitness is at most the previous first
entry's fitness: the incumbent fitness is monotonically non-increasing
across generations. -/
theorem C7_incumbent_fitness_non_increasing {α : Type} (params : GAParams)
    (population newcomers : List (GAEntry α)) (e0 : GAEntry α)
    (helite : 1 ≤ params.num_elites)
    (hhead : population.head? = some e0) :
    ∃ e1, (evolve_new_generation params population newcomers).head? = some e1 ∧
      e1.fitness ≤ e0.fitness := by
  cases population with
  | nil => simp at hhead
  | cons a t =>
    have ha : a = e0 := by simpa using hhead
    subst ha
    obtain ⟨k, hk⟩ : ∃ k, params.num_elites = k + 1 :=
      ⟨params.num_elites - 1, by omega⟩
    have hmem : a ∈ (a :: t).take params.num_elites ++ newcomers := by
      rw [hk, List.take_succ_cons]
      exact List.mem_append_left _ (List.mem_cons_self a _)
    have hperm := List.perm_insertionSort
      (fun x y : GAEntry α => x.fitness ≤ y.fitness)
      ((a :: t).take params.num_elites ++ newcomers)
    have hsorted := List.sorted_insertionSort
      (fun x y : GAEntry α => x.fitness ≤ y.fitness)
      ((a :: t).take params.num_elites ++ newcomers)
    have hmem' : a ∈ evolve_new_generation params (a :: t) newcomers := by
      unfold evolve_new_generation sortPopulation
      exact (hperm.mem_iff).mpr hmem
    cases hres : evolve_new_generation params (a :: t) newcomers with
    | nil => rw [hres] at hmem'; simp at hmem'
    | cons e1 t1 =>
      refine ⟨e1, by simp, ?_⟩
      have hsorted' : List.Sorted (fun x y : GAEntry α => x.fitness ≤ y.fitness) (e1 :: t1) := by
        rw [← hres]
        exact hsorted
      rw [hres] at hmem'
      rcases List.mem_cons.mp hmem' with h | h
      · rw [h]
      · exact List.rel_of_sorted_cons hsorted' a h

/-- Witness for `C7_incumbent_fitness_non_increasing` on a concrete
two-entry population with one elite and one newcomer. -/
theorem C7_incumbent_fitness_non_increasing_witness :
    ∃ e1, (evolve_new_generation (α := ℕ) ⟨2, 1, 0, 0, 0, 0⟩
        [⟨[], 0, 1⟩, ⟨[], 0, 5⟩] [⟨[], 0, 3⟩]).head? = some e1 ∧
      e1.fitness ≤ (GAEntry.mk (α := ℕ) [] 0 1).fitness :=
  C7_incumbent_fitness_non_increasing ⟨2, 1, 0, 0, 0, 0⟩
    [⟨[], 0, 1⟩, ⟨[], 0, 5⟩] [⟨[], 0, 3⟩] ⟨[], 0, 1⟩ (by decide) rfl

/-! ## C10: `pack_boxes` on an empty item list -/

theorem solveGo_nil {α : Type} (params : GAParams) (newc : ℕ → List (GAEntry α)) :
    ∀ (fuel gen : ℕ) (ni : ℤ),
      solveGo params newc fuel gen ni [] = some [] ∨
        solveGo params newc fuel gen ni [] = none := by
  intro fuel gen ni
  cases fuel with
  | zero => exact Or.inl rfl
  | succ n =>
    unfold solveGo
    by_cases h : ni < params.max_generations_no_improvement
    · rw [if_pos h]
      exact Or.inr rfl
    · rw [if_neg h]
      exact Or.inl rfl

theorem solve_nil {α : Type} (params : GAParams) (newc : ℕ → List (GAEntry α)) :
    solve params newc [] = none := by
  unfold solve
  rcases solveGo_nil params newc params.max_generations.toNat 0 0 with h | h <;> rw [h] <;> rfl

/-- Claim C10: for an empty item list, the derived population size is
zero, the initial population is empty, the solve loop's read of
`population[0]` (or the final incumbent read when the loop body never
runs) is out of bounds — modelled as `none` — and `pack_boxes` panics
rather than returning an empty list of bins. -/
theorem C10_empty_items_panic (params : Params) (bin_spec : Cuboid)
    (gen_chromosomes : ℕ → List ℚ) (newcomers : ℕ → List (GAEntry InnerSolution)) :
    (params.get_ga_params ([] : List Cuboid).length).population_size = 0 ∧
    init_first_generation [] params.box_rotation_type bin_spec
        (params.get_ga_params ([] : List Cuboid).length).population_size gen_chromosomes
      = some [] ∧
    solve (params.get_ga_params ([] : List Cuboid).length) newcomers
        ([] : List (GAEntry InnerSolution)) = none ∧
    pack_boxes params bin_spec [] gen_chromosomes newcomers = none := by
  have h0 : (params.get_ga_params ([] : List Cuboid).length).population_size = 0 := by
    simp [Params.get_ga_params]
  have h1 : init_first_generation [] params.box_rotation_type bin_spec
      (params.get_ga_params ([] : List Cuboid).length).population_size gen_chromosomes
      = some [] := by
    rw [h0]
    simp [init_first_generation, decodeMany, sortPopulation]
  refine ⟨h0, h1, solve_nil _ _, ?_⟩
  unfold pack_boxes
  simp only [List.map_nil]
  rw [h1]
  dsimp only
  rw [solve_nil]
  rfl

/-! ## C1: every item is placed exactly once -/

theorem BinList.nth_mut_size (bl : BinList) (idx : ℕ) (f : InnerBin → InnerBin) :
    (bl.nth_mut idx f).size = bl.size := rfl

theorem BinList.nth_mut_bins_length (bl : BinList) (idx : ℕ) (f : InnerBin → InnerBin) :
    (bl.nth_mut idx f).bins.length = bl.bins.length := by
  simp [BinList.nth_mut]

theorem BinList.open_new_bin_snd_size (bl : BinList) :
    (bl.open_new_bin).2.size = bl.size + 1 := rfl

theorem BinList.open_new_bin_WF (bl : BinList) (h : bl.size ≤ bl.bins.length) :
    (bl.open_new_bin).2.size ≤ (bl.open_new_bin).2.bins.length := by
  unfold BinList.open_new_bin
  dsimp only
  split
  · simp only [List.length_append, List.length_cons, List.length_nil]
    omega
  · rw [List.length_set]
    omega

theorem placeStep_size_mono (boxes : List InnerBox) (rotation_type : RotationType)
    (chromosome : List ℚ) (e : ℕ × ℚ) (rest : List (ℕ × ℚ)) (st : PlaceState) :
    st.bins.size ≤ (placeStep boxes rotation_type chromosome e rest st).bins.size := by
  unfold placeStep
  cases hfit : findFirstFit st.bins.opened (boxes.getD e.1 default).cuboid rotation_type with
  | some p =>
    simp only [hfit]
    rw [BinList.nth_mut_size]
  | none =>
    simp only [hfit]
    rw [BinList.nth_mut_size, BinList.open_new_bin_snd_size]
    omega

theorem placeStep_WF (boxes : List InnerBox) (rotation_type : RotationType)
    (chromosome : List ℚ) (e : ℕ × ℚ) (rest : List (ℕ × ℚ)) (st : PlaceState)
    (h : st.bins.size ≤ st.bins.bins.length) :
    (placeStep boxes rotation_type chromosome e rest st).bins.size ≤
      (placeStep boxes rotation_type chromosome e rest st).bins.bins.length := by
  unfold placeStep
  cases hfit : findFirstFit st.bins.opened (boxes.getD e.1 default).cuboid rotation_type with
  | some p =>
    simp only [hfit]
    rw [BinList.nth_mut_size, BinList.nth_mut_bins_length]
    exact h
  | none =>
    simp only [hfit]
    rw [BinList.nth_mut_size, BinList.nth_mut_bins_length]
    exact BinList.open_new_bin_WF st.bins h

theorem placeLoop_size_mono (boxes : List InnerBox) (rotation_type : RotationType)
    (chromosome : List ℚ) :
    ∀ (bps : List (ℕ × ℚ)) (st : PlaceState),
      st.bins.size ≤ (placeLoop boxes rotation_type chromosome bps st).bins.size := by
  intro bps
  induction bps with
  | nil => intro st; exact le_refl _
  | cons e rest ih =>
    intro st
    exact le_trans (placeStep_size_mono boxes rotation_type chromosome e rest st)
      (ih (placeStep boxes rotation_type chromosome e rest st))

theorem placeLoop_WF (boxes : List InnerBox) (rotation_type : RotationType)
    (chromosome : List ℚ) :
    ∀ (bps : List (ℕ × ℚ)) (st : PlaceState),
      st.bins.size ≤ st.bins.bins.length →
      (placeLoop boxes rotation_type chromosome bps st).bins.size ≤
        (placeLoop boxes rotation_type chromosome bps st).bins.bins.length := by
  intro bps
  induction bps with
  | nil => intro st h; exact h
  | cons e rest ih =>
    intro st h
    exact ih _ (placeStep_WF boxes rotation_type chromosome e rest st h)

theorem placeStep_placements_map (boxes : List InnerBox) (rotation_type : RotationType)
    (chromosome : List ℚ) (e : ℕ × ℚ) (rest : List (ℕ × ℚ)) (st : PlaceState) :
    ((placeStep boxes rotation_type chromosome e rest st).placements).map
        InnerPlacement.box_idx =
      st.placements.map InnerPlacement.box_idx ++ [e.1] := by
  unfold placeStep
  cases hfit : findFirstFit st.bins.opened (boxes.getD e.1 default).cuboid rotation_type with
  | some p =>
    simp only [hfit]
    simp
  | none =>
    simp only [hfit]
    simp

theorem placeLoop_placements_map (boxes : List InnerBox) (rotation_type : RotationType)
    (chromosome : List ℚ) :
    ∀ (bps : List (ℕ × ℚ)) (st : PlaceState),
      ((placeLoop boxes rotation_type chromosome bps st).placements).map
          InnerPlacement.box_idx =
        st.placements.map InnerPlacement.box_idx ++ bps.map Prod.fst := by
  intro bps
  induction bps with
  | nil => intro st; simp [placeLoop]
  | cons e rest ih =>
    intro st
    show ((placeLoop boxes rotation_type chromosome rest
        (placeStep boxes rotation_type chromosome e rest st)).placements).map
        InnerPlacement.box_idx = _
    rw [ih, placeStep_placements_map]
    simp

theorem calculate_bps_length (chromosome : List ℚ) :
    (calculate_bps chromosome).length = chromosome.length / 2 := by
  unfold calculate_bps
  rw [List.length_insertionSort, List.enum_length, List.length_take,
    min_eq_left (Nat.div_le_self _ _)]

theorem calculate_bps_map_fst_perm (chromosome : List ℚ) :
    ((calculate_bps chromosome).map Prod.fst).Perm (List.range (chromosome.length / 2)) := by
  have hperm := (List.perm_insertionSort (fun a b : ℕ × ℚ => a.2 ≤ b.2)
    (chromosome.take (chromosome.length / 2)).enum).map Prod.fst
  rw [List.enum_map_fst, List.length_take, min_eq_left (Nat.div_le_self _ _)] at hperm
  exact hperm

/-- Claim C1: for a non-empty box list and a chromosome of length
`2 * boxes.length`, `place_boxes` on a fresh decoder returns a solution
in which the decoded packing order is a permutation of the item
indices: exactly one `InnerPlacement` carries each box index. -/
theorem C1_every_item_placed_exactly_once (boxes : List InnerBox)
    (rotation_type : RotationType) (bin_spec : Cuboid) (chromosome : List ℚ)
    (hne : boxes ≠ []) (hlen : chromosome.length = 2 * boxes.length) :
    ∃ sol, (place_boxes boxes rotation_type chromosome (BinList.new bin_spec)).1 = some sol ∧
      (sol.placements.map InnerPlacement.box_idx).Perm (List.range boxes.length) ∧
      ∀ i, i < boxes.length →
        (sol.placements.map InnerPlacement.box_idx).count i = 1 := by
  have hdiv : chromosome.length / 2 = boxes.length := by omega
  have hbpslen : (calculate_bps chromosome).length = boxes.length := by
    rw [calculate_bps_length, hdiv]
  have hbpsne : calculate_bps chromosome ≠ [] := by
    intro h
    rw [h] at hbpslen
    exact hne (List.length_eq_zero.mp hbpslen.symm)
  set st := placeLoop boxes rotation_type chromosome (calculate_bps chromosome)
    ⟨BinList.new bin_spec, [], i32Max, i32Max⟩ with hst
  have hmap : st.placements.map InnerPlacement.box_idx =
      (calculate_bps chromosome).map Prod.fst := by
    rw [hst, placeLoop_placements_map]
    simp
  have hperm : (st.placements.map InnerPlacement.box_idx).Perm
      (List.range boxes.length) := by
    rw [hmap, ← hdiv]
    exact calculate_bps_map_fst_perm chromosome
  have hsize : 1 ≤ st.bins.size := by
    rcases hb : calculate_bps chromosome with _ | ⟨e, rest⟩
    · exact absurd hb hbpsne
    · rw [hst, hb]
      show 1 ≤ (placeLoop boxes rotation_type chromosome rest
        (placeStep boxes rotation_type chromosome e rest
          ⟨BinList.new bin_spec, [], i32Max, i32Max⟩)).bins.size
      refine le_trans ?_ (placeLoop_size_mono boxes rotation_type chromosome rest _)
      have hnone : findFirstFit (BinList.new bin_spec).opened
          (boxes.getD e.1 default).cuboid rotation_type = none := rfl
      unfold placeStep
      simp only [hnone]
      rw [BinList.nth_mut_size, BinList.open_new_bin_snd_size]
      omega
  have hWF : st.bins.size ≤ st.bins.bins.length := by
    rw [hst]
    exact placeLoop_WF boxes rotation_type chromosome _ _ (by simp [BinList.new])
  have hople : st.bins.opened.length = st.bins.size := by
    rw [BinList.opened, List.length_take]
    exact min_eq_left hWF
  have hopne : st.bins.opened ≠ [] := by
    intro h
    rw [h] at hople
    simp at hople
    omega
  show ∃ sol,
    (match (st.bins.opened.map InnerBin.used_volume).min? with
      | none => ((none : Option InnerSolution), st.bins)
      | some least_load =>
        (some ⟨st.bins.opened.length, least_load, st.placements⟩, st.bins)).1 = some sol ∧ _
  cases hmin : (st.bins.opened.map InnerBin.used_volume).min? with
  | none =>
    exfalso
    have hmn := List.min?_eq_none_iff.mp hmin
    exact hopne (List.map_eq_nil_iff.mp hmn)
  | some least_load =>
    refine ⟨⟨st.bins.opened.length, least_load, st.placements⟩, rfl, hperm, ?_⟩
    intro i hi
    rw [hperm.count_eq i]
    exact List.count_eq_one_of_mem (List.nodup_range _) (List.mem_range.mpr hi)

/-- Witness for `C1_every_item_placed_exactly_once`: one unit box packed
into a unit bin. -/
theorem C1_every_item_placed_exactly_once_witness :
    ∃ sol, (place_boxes [innerBoxOf ⟨1, 1, 1⟩] RotationType.ThreeDimension
        [mkRat 1 2, mkRat 1 2] (BinList.new ⟨1, 1, 1⟩)).1 = some sol ∧
      (sol.placements.map InnerPlacement.box_idx).Perm
        (List.range [innerBoxOf ⟨1, 1, 1⟩].length) ∧
      ∀ i, i < [innerBoxOf ⟨1, 1, 1⟩].length →
        (sol.placements.map InnerPlacement.box_idx).count i = 1 :=
  C1_every_item_placed_exactly_once [innerBoxOf ⟨1, 1, 1⟩] RotationType.ThreeDimension
    ⟨1, 1, 1⟩ [mkRat 1 2, mkRat 1 2] (by decide) (by decide)

/-! ## C6: lazy pruning thresholds versus rescanning the tail -/

theorem min_dimension_and_volume_foldl_init (boxes : List InnerBox) :
    ∀ (T : List (ℕ × ℚ)) (a b x y : ℤ),
      T.foldl (fun acc p =>
          (min acc.1 (boxes.getD p.1 default).smallest_dimension,
           min acc.2 (boxes.getD p.1 default).volume)) (min x a, min y b) =
        (min x (T.foldl (fun acc p =>
            (min acc.1 (boxes.getD p.1 default).smallest_dimension,
             min acc.2 (boxes.getD p.1 default).volume)) (a, b)).1,
         min y (T.foldl (fun acc p =>
            (min acc.1 (boxes.getD p.1 default).smallest_dimension,
             min acc.2 (boxes.getD p.1 default).volume)) (a, b)).2) := by
  intro T
  induction T with
  | nil => intro a b x y; rfl
  | cons p T ih =>
    intro a b x y
    simp only [List.foldl_cons]
    rw [min_assoc x a, min_assoc y b]
    exact ih _ _ x y

theorem min_dimension_and_volume_cons (boxes : List InnerBox) (e : ℕ × ℚ)
    (T : List (ℕ × ℚ)) :
    min_dimension_and_volume boxes (e :: T) =
      (min (boxes.getD e.1 default).smallest_dimension
        (min_dimension_and_volume boxes T).1,
       min (boxes.getD e.1 default).volume
        (min_dimension_and_volume boxes T).2) := by
  unfold min_dimension_and_volume
  simp only [List.foldl_cons]
  rw [min_comm i32Max (boxes.getD e.1 default).smallest_dimension,
    min_comm i32Max (boxes.getD e.1 default).volume]
  exact min_dimension_and_volume_foldl_init boxes T i32Max i32Max _ _

theorem placeStep_rescan_eq (boxes : List InnerBox) (rotation_type : RotationType)
    (chromosome : List ℚ) (e : ℕ × ℚ) (rest : List (ℕ × ℚ)) (bins : BinList)
    (pl : List InnerPlacement) :
    placeStep boxes rotation_type chromosome e rest
        ⟨bins, pl, (min_dimension_and_volume boxes (e :: rest)).1,
          (min_dimension_and_volume boxes (e :: rest)).2⟩ =
      ⟨(placeStepRescan boxes rotation_type chromosome e rest (bins, pl)).1,
       (placeStepRescan boxes rotation_type chromosome e rest (bins, pl)).2,
       (min_dimension_and_volume boxes rest).1,
       (min_dimension_and_volume boxes rest).2⟩ := by
  have hcons := min_dimension_and_volume_cons boxes e rest
  unfold placeStep placeStepRescan
  dsimp only
  by_cases hc : (boxes.getD e.1 default).smallest_dimension ≤
      (min_dimension_and_volume boxes (e :: rest)).1 ∨
      (boxes.getD e.1 default).volume ≤ (min_dimension_and_volume boxes (e :: rest)).2
  · rw [if_pos hc]
  · rw [if_neg hc]
    push_neg at hc
    have h1 : (min_dimension_and_volume boxes (e :: rest)).1 =
        (min_dimension_and_volume boxes rest).1 := by
      rcases min_choice (boxes.getD e.1 default).smallest_dimension
          (min_dimension_and_volume boxes rest).1 with h | h
      · exfalso
        have := hc.1
        rw [hcons] at this
        simp only [h] at this
        omega
      · rw [hcons]
        simpa using h
    have h2 : (min_dimension_and_volume boxes (e :: rest)).2 =
        (min_dimension_and_volume boxes rest).2 := by
      rcases min_choice (boxes.getD e.1 default).volume
          (min_dimension_and_volume boxes rest).2 with h | h
      · exfalso
        have := hc.2
        rw [hcons] at this
        simp only [h] at this
        omega
      · rw [hcons]
        simpa using h
    rw [h1, h2]

theorem placeLoop_rescan_eq (boxes : List InnerBox) (rotation_type : RotationType)
    (chromosome : List ℚ) :
    ∀ (bps : List (ℕ × ℚ)) (bins : BinList) (pl : List InnerPlacement),
      placeLoop boxes rotation_type chromosome bps
          ⟨bins, pl, (min_dimension_and_volume boxes bps).1,
            (min_dimension_and_volume boxes bps).2⟩ =
        ⟨(placeLoopRescan boxes rotation_type chromosome bps (bins, pl)).1,
         (placeLoopRescan boxes rotation_type chromosome bps (bins, pl)).2,
         i32Max, i32Max⟩ := by
  intro bps
  induction bps with
  | nil => intro bins pl; rfl
  | cons e rest ih =>
    intro bins pl
    show placeLoop boxes rotation_type chromosome rest
        (placeStep boxes rotation_type chromosome e rest _) = _
    rw [placeStep_rescan_eq, ih]
    rfl

/-- Claim C6: the lazily maintained `min_dimension` / `min_volume`
thresholds inside `place_boxes` coincide at every step with the minima
over exactly the not-yet-placed tail of the box packing sequence: the
whole decoding equals the variant that rescans the remaining tail at
every step.  The hypothesis reflects `i32`: every box's smallest
dimension is at most `i32::MAX`, which makes the first iteration's
recomputation unconditional. -/
theorem C6_lazy_thresholds_equal_rescan (boxes : List InnerBox)
    (rotation_type : RotationType) (chromosome : List ℚ) (bins0 : BinList)
    (hsd : ∀ b ∈ boxes, b.smallest_dimension ≤ i32Max) :
    place_boxes boxes rotation_type chromosome bins0 =
      place_boxes_rescan boxes rotation_type chromosome bins0 := by
  unfold place_boxes place_boxes_rescan
  rcases hb : calculate_bps chromosome with _ | ⟨e, rest⟩
  · rfl
  · have hcond : (boxes.getD e.1 default).smallest_dimension ≤ i32Max := by
      by_cases hidx : e.1 < boxes.length
      · rw [List.getD_eq_getElem boxes default hidx]
        exact hsd _ (List.getElem_mem hidx)
      · rw [List.getD_eq_default boxes default (by omega)]
        decide
    have hstep1 : placeStep boxes rotation_type chromosome e rest
        ⟨bins0, [], i32Max, i32Max⟩ =
        ⟨(placeStepRescan boxes rotation_type chromosome e rest (bins0, [])).1,
         (placeStepRescan boxes rotation_type chromosome e rest (bins0, [])).2,
         (min_dimension_and_volume boxes rest).1,
         (min_dimension_and_volume boxes rest).2⟩ := by
      unfold placeStep placeStepRescan
      dsimp only
      rw [if_pos (Or.inl hcond)]
    simp only [placeLoop, placeLoopRescan]
    rw [hstep1, placeLoop_rescan_eq]

/-- Witness for `C6_lazy_thresholds_equal_rescan` on a concrete
two-box instance. -/
theorem C6_lazy_thresholds_equal_rescan_witness :
    place_boxes [innerBoxOf ⟨5, 5, 5⟩, innerBoxOf ⟨5, 5, 5⟩] RotationType.ThreeDimension
        [mkRat 1 4, mkRat 3 4, mkRat 1 2, mkRat 1 2] (BinList.new ⟨10, 10, 10⟩) =
      place_boxes_rescan [innerBoxOf ⟨5, 5, 5⟩, innerBoxOf ⟨5, 5, 5⟩]
        RotationType.ThreeDimension
        [mkRat 1 4, mkRat 3 4, mkRat 1 2, mkRat 1 2] (BinList.new ⟨10, 10, 10⟩) :=
  C6_lazy_thresholds_equal_rescan [innerBoxOf ⟨5, 5, 5⟩, innerBoxOf ⟨5, 5, 5⟩]
    RotationType.ThreeDimension [mkRat 1 4, mkRat 3 4, mkRat 1 2, mkRat 1 2]
    (BinList.new ⟨10, 10, 10⟩) (by decide)

/-! ## C8: decoding is deterministic despite scratch-buffer reuse -/

/-- Structural invariant of the decoder's bin list: the stored spec is
the decoder's bin spec, the open prefix is within the buffer, and every
buffered bin carries that spec. -/
def BinListInv (bin_spec : Cuboid) (s : BinList) : Prop :=
  s.spec = bin_spec ∧ s.size ≤ s.bins.length ∧ ∀ b ∈ s.bins, b.spec = bin_spec

theorem BinListInv.of_new (bin_spec : Cuboid) :
    BinListInv bin_spec (BinList.new bin_spec) :=
  ⟨rfl, le_refl _, by intro b hb; simp [BinList.new] at hb⟩

theorem InnerBin.reset_eq_new {b : InnerBin} {spec : Cuboid} (h : b.spec = spec) :
    b.reset = InnerBin.new spec := by
  simp [InnerBin.reset, InnerBin.new, h]

theorem BinList.opened_length (s : BinList) (h : s.size ≤ s.bins.length) :
    s.opened.length = s.size := by
  rw [BinList.opened, List.length_take]
  exact min_eq_left h

theorem BinList.nth_eq_opened_getD (s : BinList) (idx : ℕ) (h : idx < s.size) :
    s.nth idx = s.opened.getD idx default := by
  unfold BinList.nth BinList.opened
  rw [List.getD_eq_getElem?_getD, List.getD_eq_getElem?_getD, List.getElem?_take, if_pos h]

theorem BinList.nth_mut_opened (s : BinList) (idx : ℕ) (f : InnerBin → InnerBin) :
    (s.nth_mut idx f).opened = s.opened.set idx (f (s.nth idx)) := by
  unfold BinList.nth_mut BinList.opened BinList.nth
  dsimp only
  rw [List.set_take]

theorem InnerBin.allocate_space_spec (b : InnerBin) (sp : Space) (f : Space → Bool) :
    (b.allocate_space sp f).spec = b.spec := rfl

theorem BinList.nth_mut_Inv {bin_spec : Cuboid} (s : BinList) (idx : ℕ)
    (f : InnerBin → InnerBin) (h : BinListInv bin_spec s)
    (hf : ∀ b, (f b).spec = b.spec) (hidx : idx < s.bins.length) :
    BinListInv bin_spec (s.nth_mut idx f) := by
  obtain ⟨hspec, hWF, hmem⟩ := h
  refine ⟨hspec, ?_, ?_⟩
  · rw [BinList.nth_mut_size, BinList.nth_mut_bins_length]
    exact hWF
  · intro b hb
    simp only [BinList.nth_mut] at hb
    rcases List.mem_or_eq_of_mem_set hb with hold | hnew
    · exact hmem b hold
    · rw [hnew, hf, List.getD_eq_getElem _ _ hidx]
      exact hmem _ (List.getElem_mem hidx)

theorem open_new_bin_sim {bin_spec : Cuboid} (s : BinList)
    (h : BinListInv bin_spec s) :
    (s.open_new_bin).1 = s.size ∧
    (s.open_new_bin).2.size = s.size + 1 ∧
    (s.open_new_bin).2.opened = s.opened ++ [InnerBin.new bin_spec] ∧
    BinListInv bin_spec (s.open_new_bin).2 := by
  obtain ⟨hspec, hWF, hmem⟩ := h
  unfold BinList.open_new_bin
  dsimp only
  by_cases hbuf : s.bins.length - s.size = 0
  · rw [if_pos hbuf]
    have hlen : s.size = s.bins.length := by omega
    refine ⟨rfl, rfl, ?_, hspec, ?_, ?_⟩
    · show List.take (s.size + 1) (s.bins ++ [InnerBin.new s.spec]) =
        List.take s.size s.bins ++ [InnerBin.new bin_spec]
      rw [hspec,
        show s.size + 1 = (s.bins ++ [InnerBin.new bin_spec]).length by
          simp [List.length_append]; omega,
        List.take_length,
        show List.take s.size s.bins = s.bins from by rw [hlen, List.take_length]]
    · simp only [List.length_append, List.length_cons, List.length_nil]
      omega
    · intro b hb
      rcases List.mem_append.mp hb with hold | hnew
      · exact hmem b hold
      · rw [List.mem_singleton.mp hnew, hspec]
        rfl
  · rw [if_neg hbuf]
    have hlt : s.size < s.bins.length := by omega
    have hreset : (s.bins.getD s.size default).reset = InnerBin.new bin_spec := by
      rw [List.getD_eq_getElem _ _ hlt]
      exact InnerBin.reset_eq_new (hmem _ (List.getElem_mem hlt))
    refine ⟨rfl, rfl, ?_, hspec, ?_, ?_⟩
    · show List.take (s.size + 1)
          (s.bins.set s.size (s.bins.getD s.size default).reset) =
        List.take s.size s.bins ++ [InnerBin.new bin_spec]
      rw [List.set_take, List.take_succ,
        List.getElem?_eq_getElem hlt]
      show (List.take s.size s.bins ++ [s.bins[s.size]]).set s.size _ = _
      rw [List.set_append_right _ _ (by rw [List.length_take]; omega),
        show s.size - (List.take s.size s.bins).length = 0 by
          rw [List.length_take]; omega]
      rw [hreset]
      rfl
    · show s.size + 1 ≤ (s.bins.set s.size (s.bins.getD s.size default).reset).length
      rw [List.length_set]
      omega
    · intro b hb
      rcases List.mem_or_eq_of_mem_set hb with hold | hnew
      · exact hmem b hold
      · rw [hnew, hreset]
        rfl

theorem findFirstFit_lt_length {opened : List InnerBin} {cub : Cuboid}
    {rt : RotationType} {i : ℕ} {sp : Space}
    (h : findFirstFit opened cub rt = some (i, sp)) : i < opened.length := by
  unfold findFirstFit at h
  rcases List.exists_of_findSome?_eq_some h with ⟨p, hmem, hp⟩
  rcases Option.map_eq_some'.mp hp with ⟨s, -, heq⟩
  have hi : p.1 = i := congrArg Prod.fst heq
  have hg := List.mem_enum_iff_getElem?.mp hmem
  rcases List.getElem?_eq_some_iff.mp hg with ⟨hlt, -⟩
  omega

/-- Two decoder states with equal opened prefixes and sizes (and the
bin-spec invariant) are driven identically by one placement step. -/
theorem placeStep_sim (boxes : List InnerBox) (rotation_type : RotationType)
    (chromosome : List ℚ) {bin_spec : Cuboid} (e : ℕ × ℚ) (rest : List (ℕ × ℚ))
    (st1 st2 : PlaceState)
    (h1 : BinListInv bin_spec st1.bins) (h2 : BinListInv bin_spec st2.bins)
    (hsz : st1.bins.size = st2.bins.size)
    (hop : st1.bins.opened = st2.bins.opened)
    (hpl : st1.placements = st2.placements)
    (hmd : st1.min_dimension = st2.min_dimension)
    (hmv : st1.min_volume = st2.min_volume) :
    (placeStep boxes rotation_type chromosome e rest st1).placements =
      (placeStep boxes rotation_type chromosome e rest st2).placements ∧
    (placeStep boxes rotation_type chromosome e rest st1).min_dimension =
      (placeStep boxes rotation_type chromosome e rest st2).min_dimension ∧
    (placeStep boxes rotation_type chromosome e rest st1).min_volume =
      (placeStep boxes rotation_type chromosome e rest st2).min_volume ∧
    (placeStep boxes rotation_type chromosome e rest st1).bins.size =
      (placeStep boxes rotation_type chromosome e rest st2).bins.size ∧
    (placeStep boxes rotation_type chromosome e rest st1).bins.opened =
      (placeStep boxes rotation_type chromosome e rest st2).bins.opened ∧
    BinListInv bin_spec (placeStep boxes rotation_type chromosome e rest st1).bins ∧
    BinListInv bin_spec (placeStep boxes rotation_type chromosome e rest st2).bins := by
  unfold placeStep
  rw [hop, hpl, hmd, hmv]
  dsimp only
  cases hfit : findFirstFit st2.bins.opened (boxes.getD e.1 default).cuboid rotation_type with
  | some p =>
    obtain ⟨i, sp⟩ := p
    dsimp only
    have hi2 : i < st2.bins.size := by
      have hl := findFirstFit_lt_length hfit
      rw [BinList.opened_length st2.bins h2.2.1] at hl
      exact hl
    have hi1 : i < st1.bins.size := by omega
    have hnth : st1.bins.nth i = st2.bins.nth i := by
      rw [BinList.nth_eq_opened_getD st1.bins i hi1,
        BinList.nth_eq_opened_getD st2.bins i hi2, hop]
    refine ⟨rfl, rfl, rfl, ?_, ?_, ?_, ?_⟩
    · rw [BinList.nth_mut_size, BinList.nth_mut_size]
      exact hsz
    · rw [BinList.nth_mut_opened, BinList.nth_mut_opened, hop, hnth]
    · refine BinList.nth_mut_Inv st1.bins i _ h1
        (fun b => InnerBin.allocate_space_spec b _ _) ?_
      have := h1.2.1
      omega
    · refine BinList.nth_mut_Inv st2.bins i _ h2
        (fun b => InnerBin.allocate_space_spec b _ _) ?_
      have := h2.2.1
      omega
  | none =>
    dsimp only
    obtain ⟨hidx1, hsz1, hopen1, hInv1⟩ := open_new_bin_sim st1.bins h1
    obtain ⟨hidx2, hsz2, hopen2, hInv2⟩ := open_new_bin_sim st2.bins h2
    have hfs : (st1.bins.open_new_bin).2.nth (st1.bins.open_new_bin).1 =
        (st2.bins.open_new_bin).2.nth (st2.bins.open_new_bin).1 := by
      rw [hidx1, hidx2,
        BinList.nth_eq_opened_getD _ _ (by rw [hsz1]; omega),
        BinList.nth_eq_opened_getD _ _ (by rw [hsz2]; omega),
        hopen1, hopen2, hop, hsz]
    refine ⟨?_, rfl, rfl, ?_, ?_, ?_, ?_⟩
    · rw [hfs, hidx1, hidx2, hsz]
    · rw [BinList.nth_mut_size, BinList.nth_mut_size, hsz1, hsz2, hsz]
    · rw [BinList.nth_mut_opened, BinList.nth_mut_opened, hfs,
        hopen1, hopen2, hop, hidx1, hidx2, hsz]
    · refine BinList.nth_mut_Inv _ _ _ hInv1
        (fun b => InnerBin.allocate_space_spec b _ _) ?_
      rw [hidx1]
      have := hInv1.2.1
      rw [hsz1] at this
      omega
    · refine BinList.nth_mut_Inv _ _ _ hInv2
        (fun b => InnerBin.allocate_space_spec b _ _) ?_
      rw [hidx2]
      have := hInv2.2.1
      rw [hsz2] at this
      omega

theorem placeLoop_sim (boxes : List InnerBox) (rotation_type : RotationType)
    (chromosome : List ℚ) {bin_spec : Cuboid} :
    ∀ (bps : List (ℕ × ℚ)) (st1 st2 : PlaceState),
      BinListInv bin_spec st1.bins → BinListInv bin_spec st2.bins →
      st1.bins.size = st2.bins.size → st1.bins.opened = st2.bins.opened →
      st1.placements = st2.placements → st1.min_dimension = st2.min_dimension →
      st1.min_volume = st2.min_volume →
      (placeLoop boxes rotation_type chromosome bps st1).placements =
        (placeLoop boxes rotation_type chromosome bps st2).placements ∧
      (placeLoop boxes rotation_type chromosome bps st1).bins.opened =
        (placeLoop boxes rotation_type chromosome bps st2).bins.opened := by
  intro bps
  induction bps with
  | nil => intro st1 st2 _ _ _ hop hpl _ _; exact ⟨hpl, hop⟩
  | cons e rest ih =>
    intro st1 st2 h1 h2 hsz hop hpl hmd hmv
    obtain ⟨hpl', hmd', hmv', hsz', hop', hInv1', hInv2'⟩ :=
      placeStep_sim boxes rotation_type chromosome e rest st1 st2 h1 h2 hsz hop hpl hmd hmv
    exact ih (placeStep boxes rotation_type chromosome e rest st1)
      (placeStep boxes rotation_type chromosome e rest st2)
      hInv1' hInv2' hsz' hop' hpl' hmd' hmv'

theorem placeStep_Inv (boxes : List InnerBox) (rotation_type : RotationType)
    (chromosome : List ℚ) {bin_spec : Cuboid} (e : ℕ × ℚ) (rest : List (ℕ × ℚ))
    (st : PlaceState) (h : BinListInv bin_spec st.bins) :
    BinListInv bin_spec (placeStep boxes rotation_type chromosome e rest st).bins :=
  (placeStep_sim boxes rotation_type chromosome e rest st st h h rfl rfl rfl rfl
    rfl).2.2.2.2.2.1

theorem placeLoop_Inv (boxes : List InnerBox) (rotation_type : RotationType)
    (chromosome : List ℚ) {bin_spec : Cuboid} :
    ∀ (bps : List (ℕ × ℚ)) (st : PlaceState), BinListInv bin_spec st.bins →
      BinListInv bin_spec (placeLoop boxes rotation_type chromosome bps st).bins := by
  intro bps
  induction bps with
  | nil => intro st h; exact h
  | cons e rest ih =>
    intro st h
    exact ih _ (placeStep_Inv boxes rotation_type chromosome e rest st h)

theorem place_boxes_snd (boxes : List InnerBox) (rotation_type : RotationType)
    (chromosome : List ℚ) (s : BinList) :
    (place_boxes boxes rotation_type chromosome s).2 =
      (placeLoop boxes rotation_type chromosome (calculate_bps chromosome)
        ⟨s, [], i32Max, i32Max⟩).bins := by
  unfold place_boxes
  dsimp only
  cases hmin : ((placeLoop boxes rotation_type chromosome (calculate_bps chromosome)
      ⟨s, [], i32Max, i32Max⟩).bins.opened.map InnerBin.used_volume).min? <;> rfl

theorem reachable_inv (boxes : List InnerBox) (rotation_type : RotationType)
    {bin_spec : Cuboid} {s : BinList}
    (hs : ReachableDecoder boxes rotation_type bin_spec s) :
    BinListInv bin_spec s ∧ s.size = 0 := by
  induction hs with
  | fresh => exact ⟨BinListInv.of_new bin_spec, rfl⟩
  | step c s hs ih =>
    obtain ⟨hInv, -⟩ := ih
    have hInv2 : BinListInv bin_spec (place_boxes boxes rotation_type c s).2 := by
      rw [place_boxes_snd]
      exact placeLoop_Inv boxes rotation_type c _ _ hInv
    exact ⟨⟨hInv2.1, Nat.zero_le _, hInv2.2.2⟩, rfl⟩

theorem place_boxes_fst_congr (boxes : List InnerBox) (rotation_type : RotationType)
    (chromosome : List ℚ) {bin_spec : Cuboid} (s1 s2 : BinList)
    (h1 : BinListInv bin_spec s1) (h2 : BinListInv bin_spec s2)
    (hsz : s1.size = s2.size) (hop : s1.opened = s2.opened) :
    (place_boxes boxes rotation_type chromosome s1).1 =
      (place_boxes boxes rotation_type chromosome s2).1 := by
  obtain ⟨hpl, hop'⟩ := placeLoop_sim boxes rotation_type chromosome
    (calculate_bps chromosome) ⟨s1, [], i32Max, i32Max⟩ ⟨s2, [], i32Max, i32Max⟩
    h1 h2 hsz hop rfl rfl rfl
  unfold place_boxes
  dsimp only
  rw [hop', hpl]
  cases hmin : ((placeLoop boxes rotation_type chromosome (calculate_bps chromosome)
      ⟨s2, [], i32Max, i32Max⟩).bins.opened.map InnerBin.used_volume).min? <;> rfl

/-- Claim C8: decoding is deterministic despite scratch-buffer reuse.
For every decoder state reachable from a fresh decoder by any prior
sequence of `decode_chromosome` followed by `reset` (as the GA driver
always does), decoding any chromosome returns the same `InnerSolution`
as decoding it with a freshly constructed decoder over the same boxes,
bin spec, and rotation mode. -/
theorem C8_reachable_decode_eq (boxes : List InnerBox) (rotation_type : RotationType)
    (bin_spec : Cuboid) (s : BinList)
    (hs : ReachableDecoder boxes rotation_type bin_spec s) (chromosome : List ℚ) :
    (place_boxes boxes rotation_type chromosome s).1 =
      (place_boxes boxes rotation_type chromosome (BinList.new bin_spec)).1 := by
  obtain ⟨hInv, hsz⟩ := reachable_inv boxes rotation_type hs
  refine place_boxes_fst_congr boxes rotation_type chromosome s (BinList.new bin_spec)
    hInv (BinListInv.of_new _) ?_ ?_
  · rw [hsz]; rfl
  · show s.bins.take s.size = (BinList.new bin_spec).opened
    rw [hsz]
    rfl

/-- Witness for `C8_reachable_decode_eq`: the state left by one decode
(of a different chromosome) followed by the driver's reset decodes
identically to a fresh decoder. -/
theorem C8_reachable_decode_eq_witness :
    (place_boxes [innerBoxOf ⟨1, 1, 1⟩] RotationType.ThreeDimension [mkRat 1 2, mkRat 1 2]
        ((place_boxes [innerBoxOf ⟨1, 1, 1⟩] RotationType.ThreeDimension
          [mkRat 1 3, mkRat 1 3] (BinList.new ⟨1, 1, 1⟩)).2.reset)).1 =
      (place_boxes [innerBoxOf ⟨1, 1, 1⟩] RotationType.ThreeDimension [mkRat 1 2, mkRat 1 2]
        (BinList.new ⟨1, 1, 1⟩)).1 :=
  C8_reachable_decode_eq [innerBoxOf ⟨1, 1, 1⟩] RotationType.ThreeDimension ⟨1, 1, 1⟩ _
    (ReachableDecoder.step [mkRat 1 3, mkRat 1 3] _ ReachableDecoder.fresh)
    [mkRat 1 2, mkRat 1 2]

end Kaosu
